import Mathlib

/-!
Verification of the seachat_analysis pipeline (analyze_chats.py,
summarize_results.py, generate_executive_report.py) against its
natural-language specification.

The Python code is shallowly embedded: pure functions become Lean
functions over `String` and `List`, records (Python dicts) become
association lists `List (String × RVal)`, fallible code returns
`Except`, and the stateful rate limiter becomes an explicit state
machine over `ℚ`-valued clocks.
-/

namespace Seachat

/-! ### String helpers (models of Python str primitives)

Lean's builtin `String` operations work on UTF-8 positions, which the
kernel reduces poorly, so we model the Python string primitives used by
the source directly over `List Char` (at the kernel level a `String` is
its list of characters). -/

/-- Model of Python str.strip(): drop leading and trailing whitespace. -/
def pyStrip (s : String) : String :=
  ⟨((s.data.dropWhile Char.isWhitespace).reverse.dropWhile Char.isWhitespace).reverse⟩

/-- Model of Python str.lower() (ASCII case folding, as used by the source). -/
def pyLower (s : String) : String :=
  ⟨s.data.map Char.toLower⟩

/-- Whether the character list starts with the given pattern. -/
def leadMatch : List Char → List Char → Bool
  | [], _ => true
  | _ :: _, [] => false
  | a :: p, b :: l => a = b && leadMatch p l

/-- Whether the pattern occurs as a contiguous subsequence. -/
def containsSeq (needle : List Char) : List Char → Bool
  | [] => leadMatch needle []
  | b :: l => leadMatch needle (b :: l) || containsSeq needle l

/-- Model of Python substring test: needle in hay. -/
def strContains (hay needle : String) : Bool :=
  containsSeq needle.data hay.data

/-- Split a character list on a separator character (Python str.split sep). -/
def splitOnChar (c : Char) : List Char → List (List Char)
  | [] => [[]]
  | a :: t =>
    let r := splitOnChar c t
    if a = c then [] :: r
    else
      match r with
      | [] => [[a]]
      | h :: t2 => (a :: h) :: t2

/-- Model of Python transcript.split of a newline. -/
def pyLines (s : String) : List String :=
  (splitOnChar '\n' s.data).map (fun l => ⟨l⟩)

/-- Model of a Python "\n".join(lines). -/
def joinLines : List String → String
  | [] => ""
  | [x] => x
  | x :: y :: xs => x ++ "\n" ++ joinLines (y :: xs)

/-- Strict lexicographic order on character lists by code point. -/
def charListLt : List Char → List Char → Bool
  | [], [] => false
  | [], _ :: _ => true
  | _ :: _, [] => false
  | a :: s, b :: t => if a = b then charListLt s t else decide (a < b)

/-- Model of the Python strict less-than on strings: lexicographic
comparison by code point. -/
def pyStrLt (a b : String) : Bool := charListLt a.data b.data

/-- Non-strict lexicographic order on character lists by code point. -/
def charListLe : List Char → List Char → Bool
  | [], _ => true
  | _ :: _, [] => false
  | a :: s, b :: t => if a = b then charListLe s t else decide (a < b)

/-- Model of the Python non-strict less-than on strings. -/
def pyStrLe (a b : String) : Bool := charListLe a.data b.data

/-- Association-list lookup, the model of a Python dict read. -/
def alookup {α : Type} (k : String) : List (String × α) → Option α
  | [] => none
  | (a, b) :: t => if k = a then some b else alookup k t

/-! ### analyze_chats.py : record values and the per-file stub records -/

/-- A JSON-like value as produced by the classification pipeline. -/
inductive RVal where
  | s : String → RVal
  | b : Bool → RVal
  | n : Nat → RVal
  | l : List RVal → RVal

/-- A ConversationRecord: a Python dict, modelled as an ordered
association list of fields. -/
abbrev Record := List (String × RVal)

/-- Field names of a record, in order. -/
def keysOf (r : Record) : List String := r.map Prod.fst

/-- Stub returned by process_single_file when the transcript is
empty or whitespace-only (analyze_chats.py lines 173-197). -/
def emptyTranscriptStub (base : String) : Record :=
  [("file", .s base),
   ("topics", .l [.s "empty-transcript"]),
   ("user_tasks_attempted", .l []),
   ("solved", .b false),
   ("why_unsolved", .l [.s "empty-transcript"]),
   ("needs_human", .b false),
   ("capabilities", .l []),
   ("examples", .l []),
   ("failure_category", .s "other"),
   ("missing_feature", .s "no-missing-feature-empty-transcript"),
   ("feature_category", .s "no-feature-category-empty-transcript"),
   ("specific_improvement_needed", .s "no-improvement-needed-empty-transcript"),
   ("success_patterns", .l []),
   ("demonstrated_skills", .l []),
   ("user_satisfaction_indicators", .l []),
   ("conversation_flow", .l []),
   ("escalation_triggers", .l []),
   ("error_patterns", .l []),
   ("user_emotion", .s "neutral"),
   ("conversation_complexity", .s "simple"),
   ("feature_priority_score", .n 1),
   ("improvement_effort", .s "low")]

/-- Stub returned when the conversation has no user input
(analyze_chats.py lines 200-225). -/
def incompleteConversationStub (base : String) : Record :=
  [("file", .s base),
   ("topics", .l [.s "incomplete-conversation"]),
   ("user_tasks_attempted", .l [.s "no-user-request"]),
   ("solved", .b true),
   ("why_unsolved", .l [.s "no-user-request-to-solve"]),
   ("needs_human", .b false),
   ("capabilities", .l [.s "greeting", .s "form-presentation"]),
   ("limitations", .l []),
   ("examples", .l []),
   ("failure_category", .s "incomplete-conversation"),
   ("missing_feature", .s "no-missing-feature-incomplete-conversation"),
   ("feature_category", .s "no-feature-category-incomplete-conversation"),
   ("specific_improvement_needed", .s "no-improvement-needed-user-abandoned"),
   ("success_patterns", .l [.s "bot-greeting-successful", .s "form-presentation-complete"]),
   ("demonstrated_skills", .l [.s "greeting", .s "form-presentation", .s "template-rendering"]),
   ("user_satisfaction_indicators", .l [.s "conversation-initiated", .s "bot-ready-to-help"]),
   ("conversation_flow", .l [.s "bot-greeting", .s "form-presentation", .s "user-abandoned"]),
   ("escalation_triggers", .l [.s "user-abandoned-conversation", .s "no-escalation-needed"]),
   ("error_patterns", .l [.s "no-errors-detected", .s "conversation-abandoned"]),
   ("user_emotion", .s "neutral"),
   ("conversation_complexity", .s "simple"),
   ("feature_priority_score", .n 1),
   ("improvement_effort", .s "low")]

/-- Stub returned in dry-run mode (analyze_chats.py lines 228-251). -/
def dryRunStub (base : String) : Record :=
  [("file", .s base),
   ("topics", .l [.s "unknown"]),
   ("user_tasks_attempted", .l []),
   ("solved", .b false),
   ("why_unsolved", .l [.s "dry-run-no-llm"]),
   ("needs_human", .b false),
   ("capabilities", .l []),
   ("examples", .l []),
   ("failure_category", .s "other"),
   ("missing_feature", .s "no-missing-feature-dry-run"),
   ("feature_category", .s "no-feature-category-dry-run"),
   ("specific_improvement_needed", .s "no-improvement-needed-dry-run"),
   ("success_patterns", .l []),
   ("demonstrated_skills", .l []),
   ("user_satisfaction_indicators", .l []),
   ("conversation_flow", .l []),
   ("escalation_triggers", .l []),
   ("error_patterns", .l []),
   ("user_emotion", .s "neutral"),
   ("conversation_complexity", .s "simple"),
   ("feature_priority_score", .n 1),
   ("improvement_effort", .s "low")]

/-- Fallback record when the LLM call or the parsing of its response
raised, with the exception class name (analyze_chats.py lines 260-284). -/
def parseErrorStub (base excName : String) : Record :=
  [("file", .s base),
   ("topics", .l [.s "parse-error"]),
   ("user_tasks_attempted", .l []),
   ("solved", .b false),
   ("why_unsolved", .l [.s ("exception: " ++ excName)]),
   ("needs_human", .b false),
   ("capabilities", .l []),
   ("limitations", .l []),
   ("examples", .l []),
   ("failure_category", .s "other"),
   ("missing_feature", .s "no-missing-feature-parse-error"),
   ("feature_category", .s "no-feature-category-parse-error"),
   ("specific_improvement_needed", .s "no-improvement-needed-parse-error"),
   ("success_patterns", .l []),
   ("demonstrated_skills", .l []),
   ("user_satisfaction_indicators", .l []),
   ("conversation_flow", .l []),
   ("escalation_triggers", .l []),
   ("error_patterns", .l []),
   ("user_emotion", .s "neutral"),
   ("conversation_complexity", .s "simple"),
   ("feature_priority_score", .n 1),
   ("improvement_effort", .s "low")]

/-- Fallback record for an I/O level failure while reading or
normalising the CSV (analyze_chats.py lines 286-309). -/
def fileErrorStub (base excName : String) : Record :=
  [("file", .s base),
   ("topics", .l [.s "file-error"]),
   ("user_tasks_attempted", .l []),
   ("solved", .b false),
   ("why_unsolved", .l [.s ("file-error: " ++ excName)]),
   ("needs_human", .b false),
   ("capabilities", .l []),
   ("examples", .l []),
   ("failure_category", .s "other"),
   ("missing_feature", .s "none"),
   ("feature_category", .s "none"),
   ("specific_improvement_needed", .s "none"),
   ("success_patterns", .l []),
   ("demonstrated_skills", .l []),
   ("user_satisfaction_indicators", .l []),
   ("conversation_flow", .l []),
   ("escalation_triggers", .l []),
   ("error_patterns", .l []),
   ("user_emotion", .s "neutral"),
   ("conversation_complexity", .s "simple"),
   ("feature_priority_score", .n 1),
   ("improvement_effort", .s "low")]

/-- Record appended by the dispatcher when retrieving a future result
raised (analyze_chats.py lines 493-507). -/
def processingErrorStub (base excName : String) : Record :=
  [("file", .s base),
   ("topics", .l [.s "processing-error"]),
   ("user_tasks_attempted", .l []),
   ("solved", .b false),
   ("why_unsolved", .l [.s ("processing-error: " ++ excName)]),
   ("needs_human", .b false),
   ("capabilities", .l []),
   ("limitations", .l []),
   ("examples", .l []),
   ("failure_category", .s "other"),
   ("missing_feature", .s "no-missing-feature-processing-error"),
   ("feature_category", .s "no-feature-category-processing-error"),
   ("specific_improvement_needed", .s "no-improvement-needed-processing-error")]

/-- Python dict update {**a, **b}: keys of a in order with values
overridden by b, then the keys of b that are new. -/
def dictUpdate (a b : Record) : Record :=
  (a.map (fun e => (e.1, (alookup e.1 b).getD e.2)))
    ++ b.filter (fun e => (alookup e.1 a).isNone)

/-! ### analyze_chats.py : transcript construction and filtering -/

/-- The user-authored lines of a transcript as counted by
is_incomplete_conversation (analyze_chats.py line 373): nonblank lines
whose lowercase form contains the text user-colon. -/
def user_line_count (transcript : String) : Nat :=
  ((pyLines transcript).filter
    (fun line => strContains (pyLower line) "user:" && !(pyStrip line = ""))).length

/-- analyze_chats.py lines 370-375: a conversation is incomplete when it
has no user-authored line. -/
def is_incomplete_conversation (transcript : String) : Bool :=
  user_line_count transcript == 0

/-- analyze_chats.py lines 396-400 (inside csv_to_transcript). -/
def normalize_sender (v : String) : String :=
  let v := pyLower (pyStrip v)
  if v = "web" ∨ v = "user" ∨ v = "customer" ∨ v = "client" then "user"
  else if v = "bot" ∨ v = "assistant" ∨ v = "agent" ∨ v = "system" then "bot"
  else if v = "" then "user" else v

/-- Timestamp cleanup re.sub of a trailing dot-digits suffix
(analyze_chats.py line 410). -/
def stripFracSeconds (t : String) : String :=
  let cs := t.data.reverse
  let ds := cs.takeWhile Char.isDigit
  match ds, cs.drop ds.length with
  | _ :: _, '.' :: r => ⟨r.reverse⟩
  | _, _ => t

/-- One row of the conversation CSV once the canonical Time, sender type
and message columns have been resolved; a missing (NaN) message is none. -/
structure CsvRow where
  time : String
  sender : String
  message : Option String

/-- analyze_chats.py lines 402-416: the canonical-column path of
csv_to_transcript. Rows with an empty or missing message are dropped;
MAX_TRANSCRIPT_CHARS is None so no truncation happens. -/
def csv_to_transcript_rows (rows : List CsvRow) : String :=
  let lines := rows.filterMap (fun row =>
    match row.message with
    | none => none
    | some msg =>
      if msg = "" then none
      else some ("[" ++ stripFracSeconds row.time ++ "] "
                  ++ normalize_sender row.sender ++ ": " ++ msg))
  joinLines lines

/-! ### analyze_chats.py : process_single_file -/

/-- Which branch of process_single_file produced a record. The LLM is
contacted exactly in the llmOk and parseErr branches. -/
inductive Branch where
  | emptyT | incomplete | dryRunB | llmOk | parseErr | fileErr
deriving DecidableEq

/-- Whether a branch performed the network call to the LLM. -/
def llmInvoked : Branch → Bool
  | .llmOk => true
  | .parseErr => true
  | _ => false

/-- analyze_chats.py lines 166-309. readOutcome is the result of
csv_to_transcript (ok transcript, or the name of the raised exception);
llm is the joint outcome of chat_complete plus json.loads (ok parsed
object, or the name of the raised exception). Returns the produced
record together with the branch that produced it. -/
def process_single_file (base : String) (readOutcome : Except String String)
    (dry_run : Bool) (llm : Except String Record) : Record × Branch :=
  match readOutcome with
  | .error e => (fileErrorStub base e, .fileErr)
  | .ok transcript =>
    if pyStrip transcript = "" then (emptyTranscriptStub base, .emptyT)
    else if is_incomplete_conversation transcript then
      (incompleteConversationStub base, .incomplete)
    else if dry_run then (dryRunStub base, .dryRunB)
    else
      match llm with
      | .ok obj => (dictUpdate [("file", RVal.s base)] obj, .llmOk)
      | .error e => (parseErrorStub base e, .parseErr)

/-! ### analyze_chats.py : the concurrent dispatcher result collection -/

/-- The value of result.get("topics", []): the stored topics value, or
an empty list when the field is absent. -/
def topicsOf (r : Record) : RVal :=
  match alookup "topics" r with
  | some v => v
  | none => .l []

/-- Whether the Python membership test s in v raises TypeError: it does
exactly when v is a number or a boolean; a list is searched and a
string is substring-tested, neither raising. -/
def membershipRaises : RVal → Bool
  | .b _ => true
  | .n _ => true
  | .s _ => false
  | .l _ => false

/-- analyze_chats.py lines 466-507, one iteration of the as_completed
loop. The try block also covers the statements after
per_chat.append(result): when retrieving the future's result raises,
only the processing-error record is appended; otherwise the result is
appended, and the error check on line 472 then evaluates
"parse-error" in result.get("topics", []), which raises TypeError when
that value is a number or a boolean, in which case the except block on
line 489 appends a second, processing-error record for the same file. -/
def collectOne (e : String × Except String (Record × Branch)) : List Record :=
  match e.2 with
  | .error exc => [processingErrorStub e.1 exc]
  | .ok rb =>
    if membershipRaises (topicsOf rb.1) then
      [rb.1, processingErrorStub e.1 "TypeError"]
    else [rb.1]

/-- analyze_chats.py lines 462-507: the as_completed loop over all
completed futures, in completion order. -/
def collectCompleted (completed : List (String × Except String (Record × Branch))) :
    List Record :=
  (completed.map collectOne).flatten

/-- analyze_chats.py lines 432-443: the sequential dry-run loop appends
one result per file in order. outcomes gives each file its
csv_to_transcript outcome. -/
def collectDryRun (files : List String) (outcomes : String → Except String String) :
    List Record :=
  files.map (fun f => (process_single_file f (outcomes f) true (.error "unused")).1)

/-! ### analyze_chats.py : the rate limiter (lines 25-52) -/

/-- RateLimiterState: the fields of the RateLimiter object that
wait_if_needed reads and writes, with time as an exact rational. -/
structure RateLimiterState where
  maxRequests : Nat
  requestCount : Nat
  minuteStart : ℚ

/-- analyze_chats.py lines 34-52, wait_if_needed, for a mocked clock:
now is the value of time.time() on entry, and the post-sleep time.time()
is now plus the slept duration. Returns the new state and the duration
slept, if any. -/
def waitIfNeeded (st : RateLimiterState) (now : ℚ) : RateLimiterState × Option ℚ :=
  let st :=
    if now - st.minuteStart ≥ 60 then
      { st with requestCount := 0, minuteStart := now }
    else st
  let p :=
    if st.requestCount ≥ st.maxRequests then
      let waitTime := 60 - (now - st.minuteStart)
      if waitTime > 0 then
        ({ st with requestCount := 0, minuteStart := now + waitTime }, some waitTime)
      else (st, none)
    else (st, none)
  ({ p.1 with requestCount := p.1.requestCount + 1 }, p.2)

/-- Run a sequence of acquisitions at the given clock readings,
collecting the slept durations in order. -/
def runCalls (st : RateLimiterState) : List ℚ → RateLimiterState × List ℚ
  | [] => (st, [])
  | t :: ts =>
    let p := waitIfNeeded st t
    let q := runCalls p.1 ts
    (q.1, p.2.toList ++ q.2)

/-! ### generate_executive_report.py : name resolution in
generate_executive_summary and generate_problem_analysis

These two functions read names that are bound nowhere in their scope, so
we embed Python name-resolution semantics: a body is the sequence of its
statements, each carrying the global or local names it reads and the
local name it binds; evaluation fails with NameError on the first read
of an unbound name. -/

/-- Outcome of running a Python function body. -/
inductive PyResult where
  | ok : String → PyResult
  | nameError : String → PyResult
deriving DecidableEq

/-- One Python statement: the local name it assigns (if any) and the
variable names its expression reads, in evaluation order. -/
structure PyStmt where
  target : Option String
  reads : List String

/-- Run a body: the first statement reading a name outside the
environment raises NameError naming it; otherwise targets are bound in
order and the body completes. -/
def runBody (env : List String) : List PyStmt → PyResult
  | [] => .ok "completed"
  | st :: rest =>
    match st.reads.find? (fun n => !(env.contains n)) with
    | some n => .nameError n
    | none =>
      runBody (match st.target with | some t => env ++ [t] | none => env) rest

/-- The module-level names of generate_executive_report.py: imports
(lines 7-13) and top-level function definitions. -/
def reportModuleGlobals : List String :=
  ["os", "json", "urllib", "pd", "Counter", "argparse", "glob",
   "load_analysis_data", "generate_executive_summary", "generate_problem_analysis",
   "generate_success_analysis", "generate_improvement_roadmap", "generate_action_plan",
   "generate_executive_report", "consolidate_similar_features",
   "create_consolidated_mapping", "create_broad_sub_category",
   "validate_mapping_structure", "generate_concise_report",
   "generate_technical_analysis", "main"]

/-- The Python builtins the two bodies reference. -/
def pyBuiltins : List String :=
  ["len", "sum", "str", "any", "list", "sorted", "print", "set", "max", "min"]

/-- Statements of generate_executive_summary after its per_chat guard
(generate_executive_report.py lines 79-130), with the names each one
reads. Comprehension variables are local to the comprehension and are
not free reads. -/
def executiveSummaryBody : List PyStmt :=
  [⟨some "total_conversations", ["len", "data"]⟩,
   ⟨some "solved_conversations", ["sum", "data"]⟩,
   ⟨some "solve_rate", ["solved_conversations", "total_conversations"]⟩,
   ⟨some "needs_human", ["sum", "data"]⟩,
   ⟨some "human_rate", ["needs_human", "total_conversations"]⟩,
   ⟨some "emotions", ["high_value_results"]⟩,
   ⟨some "emotion_counts", ["Counter", "emotions"]⟩,
   ⟨some "complexities", ["high_value_results"]⟩,
   ⟨some "complexity_counts", ["Counter", "complexities"]⟩,
   ⟨some "summary",
    ["total_conversations", "high_value", "low_value", "error_conversations",
     "solve_rate", "solved_conversations", "human_rate", "needs_human",
     "sum", "results", "emotion_counts", "complexity_counts"]⟩,
   ⟨none, ["summary"]⟩]

/-- Statements of generate_problem_analysis after its per_chat guard
(generate_executive_report.py lines 137-269), with the names each one
reads; evaluation stops at the first unbound read. -/
def problemAnalysisBody : List PyStmt :=
  [⟨some "results", ["data"]⟩,
   ⟨some "total", ["len", "results"]⟩,
   ⟨some "failure_categories", ["high_value_results"]⟩,
   ⟨some "failure_counts", ["Counter", "failure_categories"]⟩,
   ⟨some "missing_features", ["high_value_results"]⟩,
   ⟨some "improvement_needs", ["high_value_results", "any"]⟩,
   ⟨some "escalation_triggers", ["high_value_results", "any"]⟩,
   ⟨some "error_patterns", ["high_value_results", "any"]⟩,
   ⟨some "problem_report", []⟩,
   ⟨some "filtered_improvements", ["sum", "results", "any"]⟩,
   ⟨some "filtered_escalations", ["sum", "results", "any", "str"]⟩,
   ⟨some "filtered_errors", ["sum", "results", "any", "str"]⟩,
   ⟨none, ["problem_report"]⟩]

/-- The names bound anywhere in a function scope: parameters, module
globals, builtins and every local assignment of the body. -/
def boundNames (params : List String) (body : List PyStmt) : List String :=
  params ++ reportModuleGlobals ++ pyBuiltins ++ body.filterMap (fun st => st.target)

/-- generate_executive_report.py lines 74-130: generate_executive_summary.
The input data dict is modelled by its per_chat entry. -/
def generate_executive_summary (data : List (String × List Record)) : PyResult :=
  if (alookup "per_chat" data).isNone then .ok "No analysis data found."
  else runBody (boundNames ["data"] []) executiveSummaryBody

/-- generate_executive_report.py lines 132-269: generate_problem_analysis. -/
def generate_problem_analysis (data : List (String × List Record)) : PyResult :=
  if (alookup "per_chat" data).isNone then .ok "No analysis data found."
  else runBody (boundNames ["data"] []) problemAnalysisBody

/-! ### generate_executive_report.py : label canonicalization
(lines 679-756 and 905-974) -/

/-- Whether any of the search terms occurs in the lowercased label,
modelling any of term in feature_lower for term in list. -/
def anyTermIn (label : String) (terms : List String) : Bool :=
  terms.any (fun t => strContains label t)

/-- generate_executive_report.py lines 679-756: fold a raw feature name
into a canonical problem category, first match wins. -/
def consolidate_similar_features (feature_name : String) : String :=
  let fl := pyLower feature_name
  if anyTermIn fl ["account", "verification", "permission", "access", "login", "password", "security"] then
    "account-access-verification"
  else if anyTermIn fl ["ad", "campaign", "event", "approval", "rejection", "scheduling", "pixel", "tracking"] then
    "ad-campaign-management"
  else if anyTermIn fl ["api", "system", "integration", "clickmagick", "weebly", "wix", "everflow", "third-party"] then
    "api-system-integration"
  else if anyTermIn fl ["live", "agent", "human", "support", "escalation", "assistance"] then
    "live-support-escalation"
  else if anyTermIn fl ["ui", "interface", "workflow", "form", "desktop", "navigation", "user-experience"] then
    "ui-ux-workflow-improvements"
  else if anyTermIn fl ["invoice", "billing", "document", "ticket", "payment", "refund", "credit"] then
    "document-billing-payment"
  else if anyTermIn fl ["technical", "troubleshooting", "complex", "debug", "error", "issue", "problem"] then
    "technical-troubleshooting"
  else if anyTermIn fl ["information", "guidance", "instruction", "help", "how-to", "explanation", "clarification"] then
    "information-guidance-requests"
  else if anyTermIn fl ["policy", "compliance", "terms", "rules", "guidelines", "requirements"] then
    "policy-compliance-questions"
  else if anyTermIn fl ["performance", "optimization", "speed", "efficiency", "improvement", "enhancement"] then
    "performance-optimization"
  else if anyTermIn fl ["data", "analytics", "reporting", "metrics", "statistics", "insights"] then
    "data-analytics-reporting"
  else if anyTermIn fl ["customer", "service", "support", "help", "assistance", "contact"] then
    "customer-service-support"
  else if anyTermIn fl ["platform", "infrastructure", "server", "hosting", "deployment", "scalability"] then
    "platform-infrastructure"
  else if anyTermIn fl ["security", "privacy", "authentication", "authorization", "encryption", "compliance"] then
    "security-privacy-compliance"
  else if anyTermIn fl ["mobile", "app", "accessibility", "responsive", "device", "tablet"] then
    "mobile-accessibility"
  else if anyTermIn fl ["content", "media", "image", "video", "file", "upload", "download"] then
    "content-media-management"
  else if anyTermIn fl ["communication", "notification", "email", "message", "alert", "reminder"] then
    "communication-notifications"
  else if anyTermIn fl ["search", "discovery", "find", "locate", "browse", "explore"] then
    "search-discovery-navigation"
  else "other-specific-features"

/-- generate_executive_report.py lines 905-974: fold a raw sub-problem
name into a broader actionable sub-category, first match wins. -/
def create_broad_sub_category (sub_problem_name : String) : String :=
  let sl := pyLower sub_problem_name
  if anyTermIn sl ["api", "system", "integration", "access", "endpoint", "service", "backend"] then
    "need-api-system-access"
  else if anyTermIn sl ["information", "knowledge", "guide", "instruction", "help", "how-to", "explanation", "documentation"] then
    "need-information-knowledge"
  else if anyTermIn sl ["permission", "access", "authorization", "role", "privilege", "security", "authentication"] then
    "need-permission-access-control"
  else if anyTermIn sl ["ui", "interface", "button", "form", "workflow", "navigation", "user-experience", "design"] then
    "need-ui-ux-improvements"
  else if anyTermIn sl ["data", "analytics", "reporting", "metrics", "statistics", "insights", "dashboard"] then
    "need-data-analytics"
  else if anyTermIn sl ["feature", "function", "capability", "tool", "option", "setting", "configuration"] then
    "need-feature-functionality"
  else if anyTermIn sl ["integration", "third-party", "external", "connect", "sync", "import", "export"] then
    "need-integration-support"
  else if anyTermIn sl ["workflow", "process", "automation", "approval", "review", "step", "sequence"] then
    "need-workflow-automation"
  else if anyTermIn sl ["support", "assistance", "help", "live", "agent", "human", "escalation"] then
    "need-human-support"
  else if anyTermIn sl ["performance", "speed", "efficiency", "optimization", "scalability", "resource"] then
    "need-performance-optimization"
  else if anyTermIn sl ["security", "compliance", "privacy", "encryption", "audit", "certification"] then
    "need-security-compliance"
  else if anyTermIn sl ["mobile", "app", "accessibility", "responsive", "device", "tablet", "mobile-friendly"] then
    "need-mobile-accessibility"
  else if anyTermIn sl ["content", "media", "image", "video", "file", "upload", "download", "storage"] then
    "need-content-media-support"
  else if anyTermIn sl ["communication", "notification", "email", "message", "alert", "reminder", "update"] then
    "need-communication-notifications"
  else if anyTermIn sl ["search", "discovery", "find", "locate", "browse", "explore", "filter"] then
    "need-search-discovery"
  else if anyTermIn sl ["billing", "payment", "invoice", "refund", "credit", "charge", "subscription"] then
    "need-billing-payment-system"
  else "need-other-specific-features"

/-! ### generate_executive_report.py : create_consolidated_mapping
(lines 758-903) -/

/-- The per-problem entry of the consolidated mapping: the conversation
list and the sub-problem index, both ordered as Python builds them. -/
structure ProblemData where
  conversations : List String
  sub_problems : List (String × List String)
deriving DecidableEq

/-- The problems index: an ordered dict from consolidated problem name
to its data. -/
abbrev ProblemsMap := List (String × ProblemData)

/-- The csv_assignment dict: conversation to (problem, sub-problem). -/
abbrev Assignment := List (String × String × String)

/-- The full consolidated mapping. A raw mapping missing the problems or
successful_capabilities key behaves exactly like one carrying an empty
dict there, so both are plain lists. -/
structure ConsolidatedMapping where
  problems : ProblemsMap
  successful_capabilities : List (String × List String)

/-- The raw problem_conversation_mapping.json document. -/
structure RawMapping where
  problems : List (String × List String)
  successful_capabilities : List (String × List String)

/-- Apply f to the value stored at key p (lines touching
consolidated_mapping problems of cp in place). -/
def updateProblem (m : ProblemsMap) (p : String) (f : ProblemData → ProblemData) :
    ProblemsMap :=
  m.map (fun e => if e.1 = p then (e.1, f e.2) else e)

/-- Lines 783-787: create the consolidated problem entry if absent. -/
def ensureProblem (m : ProblemsMap) (cp : String) : ProblemsMap :=
  if (alookup cp m).isSome then m else m ++ [(cp, ⟨[], []⟩)]

/-- Lines 790-791: create the sub-problem entry if absent. -/
def ensureSub (m : ProblemsMap) (cp rp : String) : ProblemsMap :=
  updateProblem m cp (fun pd =>
    if (alookup rp pd.sub_problems).isSome then pd
    else { pd with sub_problems := pd.sub_problems ++ [(rp, [])] })

/-- Lines 799-805 and 821-825: append conv to the conversation list and
the rp sub-problem list of problem cp, skipping either append when conv
is already present. -/
def addConvTo (m : ProblemsMap) (cp rp conv : String) : ProblemsMap :=
  updateProblem m cp (fun pd =>
    let pd :=
      if conv ∈ pd.conversations then pd
      else { pd with conversations := pd.conversations ++ [conv] }
    { pd with sub_problems := pd.sub_problems.map (fun e =>
        if e.1 = rp then (e.1, if conv ∈ e.2 then e.2 else e.2 ++ [conv]) else e) })

/-- Lines 815-819: remove conv (first occurrence, if present) from the
conversation list and the s0 sub-problem list of problem p0. -/
def removeConvFrom (m : ProblemsMap) (p0 s0 conv : String) : ProblemsMap :=
  updateProblem m p0 (fun pd =>
    { conversations := pd.conversations.erase conv,
      sub_problems := pd.sub_problems.map (fun e =>
        if e.1 = s0 then (e.1, e.2.erase conv) else e) })

/-- The mutable state of the second pass: the problems index under
construction and the csv_assignment dict. -/
structure CState where
  problems : ProblemsMap
  assignment : Assignment

/-- Lines 793-830: the per-conversation assignment logic of the second
pass, for the candidate (cp, rp). -/
def assignConv (cp rp : String) (st : CState) (conv : String) : CState :=
  match alookup conv st.assignment with
  | none =>
    { problems := addConvTo st.problems cp rp conv,
      assignment := st.assignment ++ [(conv, (cp, rp))] }
  | some (p0, s0) =>
    if pyStrLt cp p0 then
      { problems := addConvTo (removeConvFrom st.problems p0 s0 conv) cp rp conv,
        assignment := st.assignment.map (fun e =>
          if e.1 = conv then (conv, (cp, rp)) else e) }
    else st

/-- Lines 782-830: process one sorted candidate (consolidated name, raw
name, conversations). -/
def processCandidate (st : CState) (c : String × String × List String) : CState :=
  let cp := c.1
  let rp := c.2.1
  let m := ensureSub (ensureProblem st.problems cp) cp rp
  c.2.2.foldl (assignConv cp rp) { st with problems := m }

/-- Lines 837-850: regroup the sub-problems of one problem into broader
buckets, accumulating with dict insertion or list extend. -/
def regroupSubs (subs : List (String × List String)) : List (String × List String) :=
  subs.foldl (fun acc e =>
    let b := create_broad_sub_category e.1
    if (alookup b acc).isSome then
      acc.map (fun f => if f.1 = b then (f.1, f.2 ++ e.2) else f)
    else acc ++ [(b, e.2)]) []

/-- Lines 832-852: the third pass applies the regrouping to every
problem holding more than one sub-problem. -/
def broadenPass (m : ProblemsMap) : ProblemsMap :=
  m.map (fun e =>
    if e.2.sub_problems.length > 1 then
      (e.1, { e.2 with sub_problems := regroupSubs e.2.sub_problems })
    else e)

/-- Lines 854-872: drop problems with no conversations, and drop empty
sub-problem lists of the remaining problems. -/
def cleanupPass (m : ProblemsMap) : ProblemsMap :=
  (m.filter (fun e => !e.2.conversations.isEmpty)).map (fun e =>
    (e.1, { e.2 with sub_problems := e.2.sub_problems.filter (fun f => !f.2.isEmpty) }))

/-- Lines 892-901: keep, per capability, only the conversations that
were never assigned to a problem; drop capabilities left empty. -/
def capabilitiesPass (caps : List (String × List String)) (asg : Assignment) :
    List (String × List String) :=
  caps.foldl (fun acc e =>
    let unassigned := e.2.filter (fun c => (alookup c asg).isNone)
    if unassigned.isEmpty then acc else acc ++ [(e.1, unassigned)]) []

/-- generate_executive_report.py lines 758-903: create_consolidated_mapping.
The candidates are sorted by consolidated name ascending; Python
list.sort is stable, and the foldr-based insertionSort with the
non-strict order on the first component realises exactly that stable
sort. -/
def create_consolidated_mapping (raw : RawMapping) : ConsolidatedMapping :=
  let candidates :=
    (raw.problems.map (fun e => (consolidate_similar_features e.1, e.1, e.2))).insertionSort
      (fun a b => pyStrLe a.1 b.1 = true)
  let st := candidates.foldl processCandidate ⟨[], []⟩
  { problems := cleanupPass (broadenPass st.problems),
    successful_capabilities := capabilitiesPass raw.successful_capabilities st.assignment }

/-- The concatenation of all sub-problem lists of one problem entry. -/
def joinSubs (pd : ProblemData) : List String :=
  (pd.sub_problems.map Prod.snd).flatten

/-! ### Schema field lists and concrete scenarios used by the claims -/

/-- The 22 field names of the JSON schema the classification prompt
demands of the model (analyze_chats.py lines 99-122). -/
def promptSchemaFields : List String :=
  ["topics", "user_tasks_attempted", "solved", "why_unsolved", "needs_human",
   "capabilities", "limitations", "failure_category", "missing_feature",
   "feature_category", "specific_improvement_needed", "examples",
   "success_patterns", "demonstrated_skills", "user_satisfaction_indicators",
   "conversation_flow", "escalation_triggers", "error_patterns",
   "user_emotion", "conversation_complexity", "feature_priority_score",
   "improvement_effort"]

/-- The 13 fields the dispatcher-level processing-error record carries
(analyze_chats.py lines 493-507). -/
def coreRecordFields : List String :=
  ["file", "topics", "user_tasks_attempted", "solved", "why_unsolved",
   "needs_human", "capabilities", "limitations", "examples",
   "failure_category", "missing_feature", "feature_category",
   "specific_improvement_needed"]

/-- Concrete scenario of C1: a CSV with one user message and one bot
greeting, in canonical column form. -/
def hiScenarioRows : List CsvRow :=
  [⟨"2025-01-01 10:00:00.123", "web", some "hi"⟩,
   ⟨"2025-01-01 10:00:05.456", "bot", some "Hello! How can I help you today?"⟩]

/-- The normalized transcript of the C1 scenario. -/
def hiScenarioTranscript : String := csv_to_transcript_rows hiScenarioRows

/-- Concrete scenario of C8: a well-formed transcript with five
substantive user turns. -/
def fiveTurnTranscript : String :=
  "[1] user: I need to reset my password\n[2] bot: Sure, open settings\n"
    ++ "[3] user: The reset link is broken\n[4] bot: Let me check\n"
    ++ "[5] user: It shows an error page\n[6] bot: Try again now\n"
    ++ "[7] user: Still failing, can you fix it\n[8] bot: Escalating\n"
    ++ "[9] user: Thanks, please hurry\n[10] bot: Done"

/-- Concrete scenario of C7: a bot-only transcript. -/
def botOnlyTranscript : String :=
  "[2025-01-01 09:00:00] bot: Hello! Please fill out the form below."

/-- The field names of the full stub records, in the order the
incomplete-conversation and parse-error stubs list them. -/
def fullStubKeys : List String :=
  ["file", "topics", "user_tasks_attempted", "solved", "why_unsolved",
   "needs_human", "capabilities", "limitations", "examples", "failure_category",
   "missing_feature", "feature_category", "specific_improvement_needed",
   "success_patterns", "demonstrated_skills", "user_satisfaction_indicators",
   "conversation_flow", "escalation_triggers", "error_patterns", "user_emotion",
   "conversation_complexity", "feature_priority_score", "improvement_effort"]

/-- The field names of the empty-transcript, dry-run and file-error
stubs: the full set minus limitations. -/
def noLimStubKeys : List String :=
  ["file", "topics", "user_tasks_attempted", "solved", "why_unsolved",
   "needs_human", "capabilities", "examples", "failure_category",
   "missing_feature", "feature_category", "specific_improvement_needed",
   "success_patterns", "demonstrated_skills", "user_satisfaction_indicators",
   "conversation_flow", "escalation_triggers", "error_patterns", "user_emotion",
   "conversation_complexity", "feature_priority_score", "improvement_effort"]

/-- The ten enhanced-analysis fields of the prompt schema that the
dispatcher-level processing-error record omits. -/
def enhancedAnalysisFields : List String :=
  ["success_patterns", "demonstrated_skills", "user_satisfaction_indicators",
   "conversation_flow", "escalation_triggers", "error_patterns", "user_emotion",
   "conversation_complexity", "feature_priority_score", "improvement_effort"]

/-- Concrete analysis-data dict used to witness C10. -/
def c10ExampleData : List (String × List Record) :=
  [("per_chat", [[("file", RVal.s "a.csv")]])]

/-- Structural invariant of one problem entry of the mapping under
construction, relative to the csv_assignment dict. -/
structure PDInv (asg : Assignment) (p : String) (pd : ProblemData) : Prop where
  subKeysND : (pd.sub_problems.map Prod.fst).Nodup
  convND : pd.conversations.Nodup
  subND : ∀ {s l}, (s, l) ∈ pd.sub_problems → l.Nodup
  countEq : ∀ x, (joinSubs pd).count x = pd.conversations.count x
  convAssigned : ∀ {c}, c ∈ pd.conversations → ∃ s, alookup c asg = some (p, s)
  subAssigned : ∀ {s l}, (s, l) ∈ pd.sub_problems → ∀ {c}, c ∈ l →
    alookup c asg = some (p, s)

/-- Invariant of the second-pass state of create_consolidated_mapping:
problem keys are distinct, every entry satisfies its structural
invariant, and every assignment points at an actual occurrence. -/
structure CInv (st : CState) : Prop where
  keysND : (st.problems.map Prod.fst).Nodup
  pdInv : ∀ {p pd}, (p, pd) ∈ st.problems → PDInv st.assignment p pd
  assignedIn : ∀ {c p s}, alookup c st.assignment = some (p, s) →
    ∃ pd, (p, pd) ∈ st.problems ∧ c ∈ pd.conversations ∧
      ∃ l, (s, l) ∈ pd.sub_problems ∧ c ∈ l

/-- Concrete raw mapping used to witness the consolidated-mapping
invariants. -/
def c6ExampleRaw : RawMapping :=
  { problems := [("add refund processing API", ["f1.csv", "f2.csv"]),
                 ("account verification flow", ["f1.csv", "f3.csv"])],
    successful_capabilities := [("greeting", ["f1.csv", "f9.csv"])] }

end Seachat

namespace Seachat

/-! ## Theorems settling the claims -/

/-- C9 counterexample: the claim says any value outside the two speaker
sets is passed through unchanged, but normalize_sender returns the
trimmed lowercased value: on input Admin the output is admin. -/
theorem C9_passthrough_counterexample :
    normalize_sender "Admin" = "admin" ∧ ("Admin" : String) ≠ "admin" ∧
    pyLower (pyStrip "Admin") ∉ (["web", "user", "customer", "client"] : List String) ∧
    pyLower (pyStrip "Admin") ∉ (["bot", "assistant", "agent", "system"] : List String) ∧
    pyLower (pyStrip "Admin") ≠ "" := by
  decide

/-- C9 (amended): normalize_sender maps {web, user, customer, client} to
user and {bot, assistant, agent, system} to bot after trimming and case
folding, maps values that are empty after trimming to user, and passes
every other value through after trimming and lowercasing. -/
theorem C9_normalize_sender (v : String) :
    (pyLower (pyStrip v) ∈ (["web", "user", "customer", "client"] : List String) →
      normalize_sender v = "user") ∧
    (pyLower (pyStrip v) ∈ (["bot", "assistant", "agent", "system"] : List String) →
      normalize_sender v = "bot") ∧
    (pyLower (pyStrip v) = "" → normalize_sender v = "user") ∧
    (pyLower (pyStrip v) ∉ (["web", "user", "customer", "client"] : List String) →
      pyLower (pyStrip v) ∉ (["bot", "assistant", "agent", "system"] : List String) →
      pyLower (pyStrip v) ≠ "" →
      normalize_sender v = pyLower (pyStrip v)) := by
  unfold normalize_sender
  refine ⟨?_, ?_, ?_, ?_⟩
  · intro h
    simp only [List.mem_cons, List.mem_singleton, List.not_mem_nil, or_false] at h
    rcases h with h | h | h | h <;> simp [h]
  · intro h
    simp only [List.mem_cons, List.mem_singleton, List.not_mem_nil, or_false] at h
    have hne : ¬ (pyLower (pyStrip v) = "web" ∨ pyLower (pyStrip v) = "user" ∨
        pyLower (pyStrip v) = "customer" ∨ pyLower (pyStrip v) = "client") := by
      rcases h with h | h | h | h <;> rw [h] <;> decide
    rcases h with h | h | h | h <;> simp [hne, h]
  · intro h
    simp [h]
  · intro h1 h2 h3
    simp only [List.mem_cons, List.mem_singleton, List.not_mem_nil, or_false,
      not_or] at h1 h2
    simp only [h3]
    simp [h1.1, h1.2.1, h1.2.2.1, h1.2.2.2, h2.1, h2.2.1, h2.2.2.1, h2.2.2.2, h3]

/-- C9 witness: the amended statement evaluated at concrete senders. -/
theorem C9_normalize_sender_witness :
    normalize_sender " WEB " = "user" ∧ normalize_sender "Assistant" = "bot" ∧
    normalize_sender "  " = "user" ∧ normalize_sender "Admin" = "admin" := by
  refine ⟨(C9_normalize_sender " WEB ").1 (by decide),
          (C9_normalize_sender "Assistant").2.1 (by decide),
          (C9_normalize_sender "  ").2.2.1 (by decide), ?_⟩
  have h := (C9_normalize_sender "Admin").2.2.2 (by decide) (by decide) (by decide)
  rw [h]; decide

/-- C3 counterexample: the classification contract demands a limitations
field, yet the empty-transcript stub record omits it, so not every
produced record populates every schema field. -/
theorem C3_missing_field_counterexample :
    "limitations" ∈ promptSchemaFields ∧
    "limitations" ∉ keysOf (emptyTranscriptStub "a.csv") := by
  decide

/-- C3 (amended): each record producer populates a fixed field set. The
incomplete-conversation and parse-error stubs carry the full schema plus
file; the empty-transcript, dry-run and file-error stubs carry every
schema field except limitations; the dispatcher-level processing-error
record carries only the core fields, omitting the ten enhanced-analysis
fields; an LLM-result record carries file plus exactly the fields the
model returned. -/
theorem C3_record_field_coverage (b e : String) (obj : Record) :
    keysOf (incompleteConversationStub b) = fullStubKeys ∧
    keysOf (parseErrorStub b e) = fullStubKeys ∧
    keysOf (emptyTranscriptStub b) = noLimStubKeys ∧
    keysOf (dryRunStub b) = noLimStubKeys ∧
    keysOf (fileErrorStub b e) = noLimStubKeys ∧
    keysOf (processingErrorStub b e) = coreRecordFields ∧
    (∀ g ∈ fullStubKeys, g ∈ "file" :: promptSchemaFields) ∧
    (∀ g ∈ "file" :: promptSchemaFields, g ∈ fullStubKeys) ∧
    (∀ g ∈ noLimStubKeys, g ∈ "file" :: promptSchemaFields ∧ g ≠ "limitations") ∧
    (∀ g ∈ "file" :: promptSchemaFields, g ≠ "limitations" → g ∈ noLimStubKeys) ∧
    "limitations" ∉ noLimStubKeys ∧
    (∀ g ∈ coreRecordFields, g ∈ "file" :: promptSchemaFields) ∧
    (∀ g ∈ "file" :: promptSchemaFields, g ∈ coreRecordFields ∨ g ∈ enhancedAnalysisFields) ∧
    (∀ g ∈ enhancedAnalysisFields, g ∉ coreRecordFields) ∧
    (∀ f, f ∈ keysOf (dictUpdate [("file", RVal.s b)] obj) ↔
      (f = "file" ∨ f ∈ keysOf obj)) := by
  refine ⟨rfl, rfl, rfl, rfl, rfl, rfl, by decide, by decide, by decide, by decide,
    by decide, by decide, by decide, by decide, ?_⟩
  intro f
  simp only [dictUpdate, keysOf, List.map_append, List.mem_append, List.map_cons,
    List.map_nil, List.mem_cons, List.not_mem_nil, or_false, List.mem_map,
    List.mem_filter]
  constructor
  · rintro (h | ⟨x, ⟨hx, _⟩, rfl⟩)
    · exact Or.inl h
    · exact Or.inr ⟨x, hx, rfl⟩
  · rintro (rfl | h)
    · exact Or.inl rfl
    · rcases h with ⟨x, hx, rfl⟩
      by_cases hf : x.1 = "file"
      · exact Or.inl hf
      · refine Or.inr ⟨x, ⟨hx, ?_⟩, rfl⟩
        simp [alookup, hf]

/-- C3 witness: the field-coverage statement evaluated at a concrete
file name, exception name and model object. -/
theorem C3_record_field_coverage_witness :
    keysOf (incompleteConversationStub "a.csv") = fullStubKeys ∧
    keysOf (emptyTranscriptStub "a.csv") = noLimStubKeys ∧
    ("file" ∈ keysOf (dictUpdate [("file", RVal.s "a.csv")] [("topics", RVal.l [])]) ↔
      ("file" = "file" ∨ "file" ∈ keysOf [("topics", RVal.l [])])) := by
  have h := C3_record_field_coverage "a.csv" "TypeError" [("topics", RVal.l [])]
  exact ⟨h.1, h.2.2.1, h.2.2.2.2.2.2.2.2.2.2.2.2.2.2 "file"⟩

/-- C5: any failure of the LLM call or of response parsing yields the
parse-error fallback record with the exception class name embedded in
why_unsolved, and any I/O level failure yields the file-error fallback;
the worker always returns a record, never propagating the exception. -/
theorem C5_error_fallback (base t e e2 : String) (dr : Bool) (llm : Except String Record)
    (h1 : ¬ pyStrip t = "") (h2 : is_incomplete_conversation t = false) :
    process_single_file base (.ok t) false (.error e) = (parseErrorStub base e, .parseErr) ∧
    alookup "topics" (parseErrorStub base e) = some (.l [.s "parse-error"]) ∧
    alookup "solved" (parseErrorStub base e) = some (.b false) ∧
    alookup "why_unsolved" (parseErrorStub base e) = some (.l [.s ("exception: " ++ e)]) ∧
    process_single_file base (.error e2) dr llm = (fileErrorStub base e2, .fileErr) ∧
    alookup "topics" (fileErrorStub base e2) = some (.l [.s "file-error"]) ∧
    alookup "solved" (fileErrorStub base e2) = some (.b false) ∧
    alookup "why_unsolved" (fileErrorStub base e2) = some (.l [.s ("file-error: " ++ e2)]) := by
  refine ⟨?_, rfl, rfl, rfl, rfl, rfl, rfl, rfl⟩
  simp [process_single_file, h1, h2]

/-- C5 witness: the fallback behaviour at a concrete transcript, a
timeout during the LLM call, and a concrete file-read failure. -/
theorem C5_error_fallback_witness :
    process_single_file "c.csv" (.ok fiveTurnTranscript) false (.error "Timeout")
      = (parseErrorStub "c.csv" "Timeout", .parseErr) ∧
    process_single_file "c.csv" (.error "OSError") true (.ok [])
      = (fileErrorStub "c.csv" "OSError", .fileErr) := by
  have h := C5_error_fallback "c.csv" fiveTurnTranscript "Timeout" "OSError" true (.ok [])
    (by decide) (by decide)
  exact ⟨h.1, h.2.2.2.2.1⟩

/-- C7: a nonblank transcript with zero user-authored lines (the spec
counts a line as user-authored when it contains the text user-colon) is
short-circuited before the LLM call into the incomplete-conversation
stub, whose success-shaped fields carry positive placeholders. -/
theorem C7_incomplete_short_circuit (base t : String) (dr : Bool) (llm : Except String Record)
    (h1 : ¬ pyStrip t = "") (h2 : user_line_count t = 0) :
    process_single_file base (.ok t) dr llm = (incompleteConversationStub base, .incomplete) ∧
    llmInvoked .incomplete = false ∧
    alookup "topics" (incompleteConversationStub base) = some (.l [.s "incomplete-conversation"]) ∧
    alookup "failure_category" (incompleteConversationStub base)
      = some (.s "incomplete-conversation") ∧
    alookup "solved" (incompleteConversationStub base) = some (.b true) ∧
    alookup "success_patterns" (incompleteConversationStub base)
      = some (.l [.s "bot-greeting-successful", .s "form-presentation-complete"]) ∧
    alookup "user_satisfaction_indicators" (incompleteConversationStub base)
      = some (.l [.s "conversation-initiated", .s "bot-ready-to-help"]) := by
  have h3 : is_incomplete_conversation t = true := by
    simp [is_incomplete_conversation, h2]
  refine ⟨?_, rfl, rfl, rfl, rfl, rfl, rfl⟩
  simp [process_single_file, h1, h3]

/-- C7 witness: the short-circuit on a concrete bot-only transcript. -/
theorem C7_incomplete_short_circuit_witness :
    process_single_file "b.csv" (.ok botOnlyTranscript) false (.error "x")
      = (incompleteConversationStub "b.csv", .incomplete) := by
  exact (C7_incomplete_short_circuit "b.csv" botOnlyTranscript false (.error "x")
    (by decide) (by decide)).1

/-- C8 counterexample: in dry-run mode on a well-formed transcript with
five substantive user turns the produced record carries no
filtered_reason field at all, contradicting the claimed
filtered_reason equal to dry-run. -/
theorem C8_filtered_reason_counterexample :
    pyStrip fiveTurnTranscript ≠ "" ∧ user_line_count fiveTurnTranscript = 5 ∧
    (process_single_file "c.csv" (.ok fiveTurnTranscript) true (.error "unused")).2 = .dryRunB ∧
    "filtered_reason" ∉
      keysOf (process_single_file "c.csv" (.ok fiveTurnTranscript) true (.error "unused")).1 := by
  decide

/-- C8 (amended): in dry-run mode a well-formed transcript with
substantive user turns yields the dry-run stub with why_unsolved equal
to the dry-run-no-llm tag and no network call; the record carries no
filtered_reason field. -/
theorem C8_dry_run_record (base t : String) (llm : Except String Record)
    (h1 : ¬ pyStrip t = "") (h2 : is_incomplete_conversation t = false) :
    process_single_file base (.ok t) true llm = (dryRunStub base, .dryRunB) ∧
    alookup "why_unsolved" (dryRunStub base) = some (.l [.s "dry-run-no-llm"]) ∧
    "filtered_reason" ∉ keysOf (dryRunStub base) ∧
    llmInvoked .dryRunB = false := by
  refine ⟨?_, rfl, ?_, rfl⟩
  · simp [process_single_file, h1, h2]
  · show "filtered_reason" ∉ (["file", "topics", "user_tasks_attempted", "solved",
      "why_unsolved", "needs_human", "capabilities", "examples", "failure_category",
      "missing_feature", "feature_category", "specific_improvement_needed",
      "success_patterns", "demonstrated_skills", "user_satisfaction_indicators",
      "conversation_flow", "escalation_triggers", "error_patterns", "user_emotion",
      "conversation_complexity", "feature_priority_score", "improvement_effort"] : List String)
    decide

/-- C8 witness: the amended dry-run behaviour at the concrete
five-turn transcript. -/
theorem C8_dry_run_record_witness :
    process_single_file "c.csv" (.ok fiveTurnTranscript) true (.error "unused")
      = (dryRunStub "c.csv", .dryRunB) := by
  exact (C8_dry_run_record "c.csv" fiveTurnTranscript (.error "unused")
    (by decide) (by decide)).1

/-- C1: the low-value filter the spec describes does not exist in the
code. The scenario CSV with one user message hi and one bot greeting has
one user-authored line, at most the claimed threshold of two, yet
process_single_file always reaches the LLM branch on it, and no record
the pipeline can produce for it carries a conversation_quality field. -/
theorem C1_low_value_filter_absent :
    user_line_count hiScenarioTranscript = 1 ∧
    (∀ llm, llmInvoked (process_single_file "chat1.csv" (.ok hiScenarioTranscript) false llm).2
      = true) ∧
    (∀ e, (process_single_file "chat1.csv" (.ok hiScenarioTranscript) false (.error e)).1
      = parseErrorStub "chat1.csv" e) ∧
    (∀ e, "conversation_quality" ∉ keysOf (parseErrorStub "chat1.csv" e)) ∧
    "conversation_quality" ∉ keysOf (emptyTranscriptStub "chat1.csv") ∧
    "conversation_quality" ∉ keysOf (incompleteConversationStub "chat1.csv") ∧
    "conversation_quality" ∉ keysOf (dryRunStub "chat1.csv") := by
  refine ⟨by decide, ?_, ?_, ?_, by decide, by decide, by decide⟩
  · intro llm; cases llm <;> rfl
  · intro e; rfl
  · intro e
    show "conversation_quality" ∉ (["file", "topics", "user_tasks_attempted", "solved",
      "why_unsolved", "needs_human", "capabilities", "limitations", "examples",
      "failure_category", "missing_feature", "feature_category",
      "specific_improvement_needed", "success_patterns", "demonstrated_skills",
      "user_satisfaction_indicators", "conversation_flow", "escalation_triggers",
      "error_patterns", "user_emotion", "conversation_complexity",
      "feature_priority_score", "improvement_effort"] : List String)
    decide

/-- C10: on any analysis-data dict with a nonempty per_chat record list,
generate_executive_summary and generate_problem_analysis raise NameError
on the unbound name high_value_results; that name and the names
high_value, low_value and error_conversations are bound nowhere in the
scope of generate_executive_summary. -/
theorem C10_unbound_names_name_error (data : List (String × List Record)) (pc : List Record)
    (h1 : alookup "per_chat" data = some pc) (_h2 : pc ≠ []) :
    generate_executive_summary data = .nameError "high_value_results" ∧
    generate_problem_analysis data = .nameError "high_value_results" ∧
    "high_value_results" ∉ boundNames ["data"] executiveSummaryBody ∧
    "high_value" ∉ boundNames ["data"] executiveSummaryBody ∧
    "low_value" ∉ boundNames ["data"] executiveSummaryBody ∧
    "error_conversations" ∉ boundNames ["data"] executiveSummaryBody ∧
    "high_value_results" ∉ boundNames ["data"] problemAnalysisBody := by
  have hg : (alookup "per_chat" data).isNone = false := by rw [h1]; rfl
  refine ⟨?_, ?_, by decide, by decide, by decide, by decide, by decide⟩
  · simp only [generate_executive_summary, hg, Bool.false_eq_true, if_false]
    decide
  · simp only [generate_problem_analysis, hg, Bool.false_eq_true, if_false]
    decide

/-- C10 witness: the NameError on a concrete data dict holding one
per-chat record. -/
theorem C10_unbound_names_name_error_witness :
    generate_executive_summary c10ExampleData = .nameError "high_value_results" ∧
    generate_problem_analysis c10ExampleData = .nameError "high_value_results" := by
  have h := C10_unbound_names_name_error c10ExampleData [[("file", RVal.s "a.csv")]]
    rfl (by simp)
  exact ⟨h.1, h.2.1⟩

/-- C4: the claimed one-record-per-file accounting fails on the code.
When the LLM returns the JSON object with a numeric topics value for a
well-formed transcript, process_single_file returns it as a classified
record; in the as_completed loop the record is appended to per_chat,
the error check "parse-error" in result.get("topics", []) then raises
TypeError inside the same try block, and the except block appends a
second, processing-error record for the same file: one input file
contributes two collected records, so the collected count exceeds the
number of input files and the claimed equality fails. -/
theorem C4_double_record_on_bad_topics :
    (process_single_file "a.csv" (.ok "[1] user: hi") false
        (.ok [("topics", RVal.n 1)])).2 = Branch.llmOk ∧
    collectCompleted
        [("a.csv", .ok (process_single_file "a.csv" (.ok "[1] user: hi") false
            (.ok [("topics", RVal.n 1)])))]
      = [[("file", RVal.s "a.csv"), ("topics", RVal.n 1)],
         processingErrorStub "a.csv" "TypeError"] ∧
    (collectCompleted
        [("a.csv", .ok (process_single_file "a.csv" (.ok "[1] user: hi") false
            (.ok [("topics", RVal.n 1)])))]).length = 2 ∧
    (([("a.csv", Except.ok (process_single_file "a.csv" (.ok "[1] user: hi") false
          (.ok [("topics", RVal.n 1)])))]
        : List (String × Except String (Record × Branch))).map Prod.fst)
      = ["a.csv"] := by
  refine ⟨rfl, rfl, rfl, rfl⟩

/-- Taking at most the left length of an append stays in the left part. -/
theorem take_append_left {α : Type} (l1 l2 : List α) (k : ℕ) (h : k ≤ l1.length) :
    (l1 ++ l2).take k = l1.take k := by
  induction l1 generalizing k with
  | nil => simp at h; simp [h]
  | cons a t ih =>
    cases k with
    | zero => simp
    | succ k =>
      simp only [List.cons_append, List.take_succ_cons]
      rw [ih k (by simpa using h)]

/-- While the window has room and no sixty seconds have elapsed, each
acquisition increments the counter by one and nobody sleeps. -/
theorem runCalls_no_sleep (m c : ℕ) (start : ℚ) (ts : List ℚ)
    (hw : ∀ t ∈ ts, start ≤ t ∧ t < start + 60) (hc : c + ts.length ≤ m) :
    runCalls ⟨m, c, start⟩ ts = (⟨m, c + ts.length, start⟩, []) := by
  induction ts generalizing c with
  | nil => simp [runCalls]
  | cons t ts ih =>
    have hwt := hw t (List.mem_cons_self t ts)
    have h1 : ¬ (t - start ≥ 60) := by
      have := hwt.2; intro hx; linarith
    have h2 : ¬ (c ≥ m) := by
      simp only [List.length_cons] at hc; omega
    have hstep : waitIfNeeded ⟨m, c, start⟩ t = (⟨m, c + 1, start⟩, none) := by
      simp [waitIfNeeded, h1, h2]
    have hrest := ih (fun x hx => hw x (List.mem_cons_of_mem t hx))
      (c := c + 1) (by simp only [List.length_cons] at hc; omega)
    simp only [runCalls, hstep, hrest, Option.toList_none, List.nil_append]
    congr 1
    simp only [List.length_cons]
    congr 1
    omega

/-- Running acquisitions over an appended schedule runs the two parts in
sequence and concatenates the slept durations. -/
theorem runCalls_append (st : RateLimiterState) (l1 l2 : List ℚ) :
    runCalls st (l1 ++ l2) =
      ((runCalls (runCalls st l1).1 l2).1,
       (runCalls st l1).2 ++ (runCalls (runCalls st l1).1 l2).2) := by
  induction l1 generalizing st with
  | nil => simp [runCalls]
  | cons t ts ih =>
    simp only [List.cons_append, runCalls, List.append_eq, ih, List.append_assoc]

/-- C2: over max-per-minute plus one acquisitions inside one sixty
second window, every call increments the counter by one before
returning, exactly one sleep occurs, on the last call, its duration is
sixty minus the elapsed time at the moment the limit was hit, and the
counter is reset by the sleep before the final increment. -/
theorem C2_rate_limiter_window (m : ℕ) (start tLast : ℚ) (pre : List ℚ)
    (_hm : 0 < m) (hlen : pre.length = m)
    (hw : ∀ t ∈ pre ++ [tLast], start ≤ t ∧ t < start + 60) :
    (∀ k, k ≤ m →
      (runCalls ⟨m, 0, start⟩ ((pre ++ [tLast]).take k)).1.requestCount = k ∧
      (runCalls ⟨m, 0, start⟩ ((pre ++ [tLast]).take k)).2 = []) ∧
    (runCalls ⟨m, 0, start⟩ (pre ++ [tLast])).2 = [60 - (tLast - start)] ∧
    (runCalls ⟨m, 0, start⟩ (pre ++ [tLast])).1.requestCount = 1 := by
  have hwpre : ∀ t ∈ pre, start ≤ t ∧ t < start + 60 :=
    fun t ht => hw t (List.mem_append_left _ ht)
  have hwlast : start ≤ tLast ∧ tLast < start + 60 :=
    hw tLast (List.mem_append_right _ (List.mem_singleton_self tLast))
  have hpre : runCalls ⟨m, 0, start⟩ pre = (⟨m, m, start⟩, []) := by
    have h := runCalls_no_sleep m 0 start pre hwpre (by omega)
    simpa [hlen] using h
  have hlast : waitIfNeeded ⟨m, m, start⟩ tLast
      = (⟨m, 1, tLast + (60 - (tLast - start))⟩, some (60 - (tLast - start))) := by
    have h1 : ¬ (tLast - start ≥ 60) := by
      have := hwlast.2; intro hx; linarith
    have h2 : (m ≥ m) := le_refl m
    have h3 : (60 : ℚ) - (tLast - start) > 0 := by
      have := hwlast.2; linarith
    simp [waitIfNeeded, h1, h2, h3]
  refine ⟨?_, ?_, ?_⟩
  · intro k hk
    rw [take_append_left pre [tLast] k (by omega)]
    have hkw : ∀ t ∈ pre.take k, start ≤ t ∧ t < start + 60 :=
      fun t ht => hwpre t (List.mem_of_mem_take ht)
    have hlk : (pre.take k).length = k := by
      rw [List.length_take]; omega
    have h := runCalls_no_sleep m 0 start (pre.take k) hkw (by omega)
    rw [hlk] at h
    rw [h]
    exact ⟨by simp, rfl⟩
  · rw [runCalls_append, hpre]
    simp [runCalls, hlast]
  · rw [runCalls_append, hpre]
    simp [runCalls, hlast]

/-- C2 witness: three acquisitions against a limit of two inside the
window starting at time zero: one sleep of fifty-eight seconds and a
final counter of one. -/
theorem C2_rate_limiter_window_witness :
    (runCalls ⟨2, 0, 0⟩ [0, 1, 2]).2 = [58] ∧
    (runCalls ⟨2, 0, 0⟩ [0, 1, 2]).1.requestCount = 1 := by
  have h := C2_rate_limiter_window 2 0 2 [0, 1] (by norm_num) (by simp)
    (by intro t ht; fin_cases ht <;> norm_num)
  have e : ([0, 1] : List ℚ) ++ [2] = [0, 1, 2] := rfl
  rw [e] at h
  refine ⟨?_, h.2.2⟩
  rw [h.2.1]; norm_num

end Seachat

namespace Seachat

theorem alookup_eq_none {α : Type} (k : String) (l : List (String × α)) :
    alookup k l = none ↔ k ∉ l.map Prod.fst := by
  induction l with
  | nil => simp [alookup]
  | cons e t ih =>
    rcases e with ⟨a, b⟩
    by_cases h : k = a
    · subst h; simp [alookup]
    · simp [alookup, h, ih]

theorem alookup_mem {α : Type} {k : String} {l : List (String × α)} {v : α}
    (h : alookup k l = some v) : (k, v) ∈ l := by
  induction l with
  | nil => simp [alookup] at h
  | cons e t ih =>
    rcases e with ⟨a, b⟩
    by_cases hk : k = a
    · subst hk
      simp only [alookup, if_true, eq_self_iff_true, Option.some.injEq, if_pos] at h
      subst h
      exact List.mem_cons_self _ _
    · simp only [alookup, if_neg hk] at h
      exact List.mem_cons_of_mem _ (ih h)

theorem mem_alookup {α : Type} {k : String} {l : List (String × α)} {v : α}
    (hnd : (l.map Prod.fst).Nodup) (h : (k, v) ∈ l) : alookup k l = some v := by
  induction l with
  | nil => simp at h
  | cons e t ih =>
    rcases e with ⟨a, b⟩
    simp only [List.map_cons, List.nodup_cons] at hnd
    rcases List.mem_cons.mp h with h2 | h2
    · injection h2 with ha hb
      subst ha; subst hb
      simp [alookup]
    · have hka : k ≠ a := by
        intro he
        rw [he] at h2
        exact hnd.1 (List.mem_map_of_mem Prod.fst h2)
      simp only [alookup, if_neg hka]
      exact ih hnd.2 h2

theorem alookup_append {α : Type} (k : String) (l1 l2 : List (String × α)) :
    alookup k (l1 ++ l2) = (alookup k l1).orElse (fun _ => alookup k l2) := by
  induction l1 with
  | nil => simp [alookup]
  | cons e t ih =>
    rcases e with ⟨a, b⟩
    by_cases h : k = a <;> simp [alookup, h, ih]

theorem updateProblem_keys (m : ProblemsMap) (p : String) (f : ProblemData → ProblemData) :
    (updateProblem m p f).map Prod.fst = m.map Prod.fst := by
  induction m with
  | nil => rfl
  | cons e t ih =>
    simp only [updateProblem, List.map_cons] at ih ⊢
    congr 1
    by_cases h : e.1 = p <;> simp [h]

theorem mem_updateProblem {m : ProblemsMap} {p : String} {f : ProblemData → ProblemData}
    {q : String} {d : ProblemData} :
    (q, d) ∈ updateProblem m p f ↔
      ((q ≠ p ∧ (q, d) ∈ m) ∨ (q = p ∧ ∃ d0, (p, d0) ∈ m ∧ d = f d0)) := by
  rw [updateProblem, List.mem_map]
  constructor
  · rintro ⟨⟨a, b⟩, hmem, heq⟩
    by_cases h : a = p
    · rw [if_pos h] at heq
      injection heq with h1 h2
      subst h; subst h1; subst h2
      exact Or.inr ⟨rfl, b, hmem, rfl⟩
    · rw [if_neg h] at heq
      injection heq with h1 h2
      subst h1; subst h2
      exact Or.inl ⟨h, hmem⟩
  · rintro (⟨hne, hmem⟩ | ⟨rfl, d0, hmem, rfl⟩)
    · exact ⟨(q, d), hmem, by simp [hne]⟩
    · exact ⟨(q, d0), hmem, by simp⟩

theorem alookup_replace_self {α : Type} (asg : List (String × α)) (c : String) (v : α)
    {w : α} (h : alookup c asg = some w) :
    alookup c (asg.map (fun e => if e.1 = c then (c, v) else e)) = some v := by
  induction asg with
  | nil => simp [alookup] at h
  | cons e t ih =>
    rcases e with ⟨a, b⟩
    by_cases hk : c = a
    · subst hk
      have hu : (if (c, b).1 = c then (c, v) else (c, b)) = (c, v) := by simp
      rw [List.map_cons, hu]
      simp [alookup]
    · simp only [alookup, if_neg hk] at h
      have hac : ¬ (a = c) := fun he => hk he.symm
      have hu : (if (a, b).1 = c then (c, v) else (a, b)) = (a, b) := by simp [hac]
      rw [List.map_cons, hu]
      simp only [alookup, if_neg hk]
      exact ih h

theorem alookup_replace_other {α : Type} (asg : List (String × α)) (c : String) (v : α)
    {k : String} (hk : k ≠ c) :
    alookup k (asg.map (fun e => if e.1 = c then (c, v) else e)) = alookup k asg := by
  induction asg with
  | nil => simp [alookup]
  | cons e t ih =>
    rcases e with ⟨a, b⟩
    by_cases ha : a = c
    · subst ha
      have hu : (if (a, b).1 = a then (a, v) else (a, b)) = (a, v) := by simp
      rw [List.map_cons, hu]
      simp only [alookup, if_neg hk]
      exact ih
    · have hu : (if (a, b).1 = c then (c, v) else (a, b)) = (a, b) := by simp [ha]
      rw [List.map_cons, hu]
      simp only [alookup]
      by_cases hka : k = a
      · simp [hka]
      · simp only [if_neg hka]
        exact ih

end Seachat

namespace Seachat

theorem mem_keys_unique {α : Type} {l : List (String × α)} (hnd : (l.map Prod.fst).Nodup)
    {k : String} {v1 v2 : α} (h1 : (k, v1) ∈ l) (h2 : (k, v2) ∈ l) : v1 = v2 := by
  have e1 := mem_alookup hnd h1
  have e2 := mem_alookup hnd h2
  rw [e1] at e2
  injection e2

theorem charListLt_self (l : List Char) : charListLt l l = false := by
  induction l with
  | nil => rfl
  | cons a t ih => simp [charListLt, ih]

theorem pyStrLt_ne {a b : String} (h : pyStrLt a b = true) : a ≠ b := by
  intro he
  subst he
  simp [pyStrLt, charListLt_self] at h

theorem assocUpd_keys {α : Type} (l : List (String × α)) (k : String) (g : α → α) :
    ((l.map (fun e => if e.1 = k then (e.1, g e.2) else e)).map Prod.fst) = l.map Prod.fst := by
  induction l with
  | nil => rfl
  | cons e t ih =>
    simp only [List.map_cons] at ih ⊢
    congr 1
    by_cases h : e.1 = k <;> simp [h]

theorem mem_assocUpd {α : Type} {l : List (String × α)} {k : String} {g : α → α}
    {q : String} {d : α} :
    (q, d) ∈ l.map (fun e => if e.1 = k then (e.1, g e.2) else e) ↔
      ((q ≠ k ∧ (q, d) ∈ l) ∨ (q = k ∧ ∃ d0, (k, d0) ∈ l ∧ d = g d0)) := by
  rw [List.mem_map]
  constructor
  · rintro ⟨⟨a, b⟩, hmem, heq⟩
    by_cases h : a = k
    · rw [if_pos h] at heq
      injection heq with h1 h2
      subst h; subst h1; subst h2
      exact Or.inr ⟨rfl, b, hmem, rfl⟩
    · rw [if_neg h] at heq
      injection heq with h1 h2
      subst h1; subst h2
      exact Or.inl ⟨h, hmem⟩
  · rintro (⟨hne, hmem⟩ | ⟨rfl, d0, hmem, rfl⟩)
    · exact ⟨(q, d), hmem, by simp [hne]⟩
    · exact ⟨(q, d0), hmem, by simp⟩

theorem assocUpd_id_of_not_mem {α : Type} {l : List (String × α)} {k : String} (g : α → α)
    (h : k ∉ l.map Prod.fst) : l.map (fun e => if e.1 = k then (e.1, g e.2) else e) = l := by
  induction l with
  | nil => rfl
  | cons e t ih =>
    simp only [List.map_cons, List.mem_cons, not_or] at h
    have h1 : ¬ e.1 = k := fun he => h.1 he.symm
    simp only [List.map_cons, if_neg h1]
    rw [ih h.2]

theorem subsUpd_join_count {subs : List (String × List String)} {rp : String} {lr : List String}
    (g : List String → List String) (hnd : (subs.map Prod.fst).Nodup)
    (hmem : (rp, lr) ∈ subs) (x : String) :
    ((subs.map (fun e => if e.1 = rp then (e.1, g e.2) else e)).map Prod.snd).flatten.count x
        + lr.count x
      = (subs.map Prod.snd).flatten.count x + (g lr).count x := by
  induction subs with
  | nil => simp at hmem
  | cons e t ih =>
    rcases e with ⟨a, b⟩
    simp only [List.map_cons, List.nodup_cons] at hnd
    by_cases h : a = rp
    · subst h
      have hbl : lr = b := by
        rcases List.mem_cons.mp hmem with h2 | h2
        · injection h2
        · exact absurd (List.mem_map_of_mem Prod.fst h2) hnd.1
      subst hbl
      have hrest : t.map (fun e => if e.1 = a then (e.1, g e.2) else e) = t :=
        assocUpd_id_of_not_mem g hnd.1
      have hh : (if (a, lr).1 = a then ((a, lr).1, g (a, lr).2) else (a, lr)) = (a, g lr) := by
        simp
      rw [List.map_cons, hh, hrest]
      simp only [List.map_cons, List.flatten_cons, List.count_append]
      omega
    · have h1 : ¬ (a, b).1 = rp := h
      have hmem2 : (rp, lr) ∈ t := by
        rcases List.mem_cons.mp hmem with h2 | h2
        · injection h2 with h3
          exact absurd h3.symm h
        · exact h2
      have hih := ih hnd.2 hmem2
      have hh : (if (a, b).1 = rp then ((a, b).1, g (a, b).2) else (a, b)) = (a, b) := by
        simp [h]
      rw [List.map_cons, hh]
      simp only [List.map_cons, List.flatten_cons, List.count_append]
      omega

end Seachat

namespace Seachat

theorem PDInv_empty (asg : Assignment) (p : String) : PDInv asg p ⟨[], []⟩ := by
  refine ⟨?_, ?_, ?_, ?_, ?_, ?_⟩
  · simp
  · simp
  · intro s l hl; simp at hl
  · intro x; simp [joinSubs]
  · intro c hc; simp at hc
  · intro s l hl; simp at hl

theorem ensureProblem_inv {st : CState} (h : CInv st) (cp : String) :
    CInv ⟨ensureProblem st.problems cp, st.assignment⟩ ∧
    ∃ pd, (cp, pd) ∈ ensureProblem st.problems cp := by
  by_cases hc : (alookup cp st.problems).isSome
  · have he : ensureProblem st.problems cp = st.problems := if_pos hc
    rcases Option.isSome_iff_exists.mp hc with ⟨pd, hpd⟩
    rw [he]
    exact ⟨⟨h.keysND, h.pdInv, h.assignedIn⟩, pd, alookup_mem hpd⟩
  · have hnone : alookup cp st.problems = none := Option.not_isSome_iff_eq_none.mp hc
    have hnotin : cp ∉ st.problems.map Prod.fst := (alookup_eq_none cp st.problems).mp hnone
    have he : ensureProblem st.problems cp = st.problems ++ [(cp, ⟨[], []⟩)] := if_neg hc
    rw [he]
    refine ⟨⟨?_, ?_, ?_⟩, ⟨[], []⟩, List.mem_append_right _ (List.mem_singleton_self _)⟩
    · show ((st.problems ++ [(cp, (⟨[], []⟩ : ProblemData))]).map Prod.fst).Nodup
      simp only [List.map_append, List.map_cons, List.map_nil]
      rw [List.nodup_append]
      refine ⟨h.keysND, List.nodup_singleton _, ?_⟩
      intro a ha hb
      simp only [List.mem_cons, List.not_mem_nil, or_false] at hb
      subst hb
      exact hnotin ha
    · intro p pd hpd
      replace hpd : (p, pd) ∈ st.problems ++ [(cp, (⟨[], []⟩ : ProblemData))] := hpd
      rcases List.mem_append.mp hpd with hpd | hpd
      · exact h.pdInv hpd
      · simp only [List.mem_cons, List.not_mem_nil, or_false] at hpd
        injection hpd with h1 h2
        subst h1; subst h2
        exact PDInv_empty _ _
    · intro c p s hcs
      rcases h.assignedIn hcs with ⟨pd, hpd, hconv, l, hl, hcl⟩
      exact ⟨pd, List.mem_append_left _ hpd, hconv, l, hl, hcl⟩

theorem ensureSub_inv {st : CState} (h : CInv st) (cp rp : String)
    {pd0 : ProblemData} (hmem : (cp, pd0) ∈ st.problems) :
    CInv ⟨ensureSub st.problems cp rp, st.assignment⟩ ∧
    ∃ pd, (cp, pd) ∈ ensureSub st.problems cp rp ∧ ∃ lr, (rp, lr) ∈ pd.sub_problems := by
  have hf : ∀ pd : ProblemData, PDInv st.assignment cp pd →
      PDInv st.assignment cp (if (alookup rp pd.sub_problems).isSome then pd
        else { pd with sub_problems := pd.sub_problems ++ [(rp, [])] }) := by
    intro pd hpd
    by_cases hs : (alookup rp pd.sub_problems).isSome
    · rw [if_pos hs]; exact hpd
    · rw [if_neg hs]
      have hnone : alookup rp pd.sub_problems = none := Option.not_isSome_iff_eq_none.mp hs
      have hnotin : rp ∉ pd.sub_problems.map Prod.fst :=
        (alookup_eq_none rp pd.sub_problems).mp hnone
      refine ⟨?_, hpd.convND, ?_, ?_, hpd.convAssigned, ?_⟩
      · simp only [List.map_append, List.map_cons, List.map_nil]
        rw [List.nodup_append]
        refine ⟨hpd.subKeysND, List.nodup_singleton _, ?_⟩
        intro a ha hb
        simp only [List.mem_cons, List.not_mem_nil, or_false] at hb
        subst hb
        exact hnotin ha
      · intro s l hl
        rcases List.mem_append.mp hl with hl | hl
        · exact hpd.subND hl
        · simp only [List.mem_cons, List.not_mem_nil, or_false] at hl
          injection hl with h1 h2
          subst h2
          exact List.nodup_nil
      · intro x
        have hj : joinSubs { pd with sub_problems := pd.sub_problems ++ [(rp, [])] }
            = joinSubs pd ++ [] := by
          simp [joinSubs]
        rw [hj, List.append_nil]
        exact hpd.countEq x
      · intro s l hl c hc
        rcases List.mem_append.mp hl with hl | hl
        · exact hpd.subAssigned hl hc
        · simp only [List.mem_cons, List.not_mem_nil, or_false] at hl
          injection hl with h1 h2
          subst h2
          simp at hc
  refine ⟨⟨?_, ?_, ?_⟩, ?_⟩
  · show ((ensureSub st.problems cp rp).map Prod.fst).Nodup
    rw [ensureSub, updateProblem_keys]
    exact h.keysND
  · intro q d hqd
    replace hqd : (q, d) ∈ ensureSub st.problems cp rp := hqd
    rw [ensureSub] at hqd
    rcases mem_updateProblem.mp hqd with ⟨hne, hqd⟩ | ⟨heq, d0, hd0, hdf⟩
    · exact h.pdInv hqd
    · subst heq; subst hdf
      exact hf d0 (h.pdInv hd0)
  · intro c p s hcs
    replace hcs : alookup c st.assignment = some (p, s) := hcs
    rcases h.assignedIn hcs with ⟨pd, hpd, hconv, l, hl, hcl⟩
    by_cases hpcp : p = cp
    · subst hpcp
      by_cases hs : (alookup rp pd.sub_problems).isSome
      · refine ⟨pd, ?_, hconv, l, hl, hcl⟩
        show (p, pd) ∈ ensureSub st.problems p rp
        rw [ensureSub]
        exact mem_updateProblem.mpr (Or.inr ⟨rfl, pd, hpd, (if_pos hs).symm⟩)
      · refine ⟨{ pd with sub_problems := pd.sub_problems ++ [(rp, [])] }, ?_, hconv,
          l, List.mem_append_left _ hl, hcl⟩
        show (p, _) ∈ ensureSub st.problems p rp
        rw [ensureSub]
        exact mem_updateProblem.mpr (Or.inr ⟨rfl, pd, hpd, (if_neg hs).symm⟩)
    · refine ⟨pd, ?_, hconv, l, hl, hcl⟩
      show (p, pd) ∈ ensureSub st.problems cp rp
      rw [ensureSub]
      exact mem_updateProblem.mpr (Or.inl ⟨hpcp, hpd⟩)
  · by_cases hs : (alookup rp pd0.sub_problems).isSome
    · rcases Option.isSome_iff_exists.mp hs with ⟨lr, hlr⟩
      refine ⟨pd0, ?_, lr, alookup_mem hlr⟩
      rw [ensureSub]
      exact mem_updateProblem.mpr (Or.inr ⟨rfl, pd0, hmem, (if_pos hs).symm⟩)
    · refine ⟨{ pd0 with sub_problems := pd0.sub_problems ++ [(rp, [])] }, ?_, [],
        List.mem_append_right _ (List.mem_singleton_self _)⟩
      rw [ensureSub]
      exact mem_updateProblem.mpr (Or.inr ⟨rfl, pd0, hmem, (if_neg hs).symm⟩)

end Seachat

namespace Seachat

theorem nodup_append_single {α : Type} [DecidableEq α] {l : List α} {a : α}
    (h : l.Nodup) (ha : a ∉ l) : (l ++ [a]).Nodup := by
  rw [List.nodup_append]
  refine ⟨h, List.nodup_singleton a, ?_⟩
  intro x hx hy
  simp only [List.mem_cons, List.not_mem_nil, or_false] at hy
  subst hy
  exact ha hx

theorem alookup_append_single_ne {α : Type} (asg : List (String × α)) {conv c : String}
    (v : α) (h : c ≠ conv) : alookup c (asg ++ [(conv, v)]) = alookup c asg := by
  rw [alookup_append]
  cases hx : alookup c asg with
  | some w => rfl
  | none => simp [alookup, h]

theorem alookup_append_single_self {α : Type} {asg : List (String × α)} {conv : String}
    (v : α) (h : alookup conv asg = none) : alookup conv (asg ++ [(conv, v)]) = some v := by
  rw [alookup_append, h]
  simp [alookup]

theorem pdInv_assignment_transfer {asg asg' : Assignment} {p : String} {pd : ProblemData}
    (hpd : PDInv asg p pd)
    (hpres : ∀ c s', alookup c asg = some (p, s') → alookup c asg' = some (p, s')) :
    PDInv asg' p pd := by
  refine ⟨hpd.subKeysND, hpd.convND, hpd.subND, hpd.countEq, ?_, ?_⟩
  · intro c hc
    rcases hpd.convAssigned hc with ⟨s, hs⟩
    exact ⟨s, hpres c s hs⟩
  · intro s l hl c hc
    exact hpres c s (hpd.subAssigned hl hc)

theorem addConvTo_pdInv {asg asg' : Assignment} {cp rp conv : String}
    {pdc : ProblemData} {lr : List String}
    (hpd : PDInv asg cp pdc)
    (hsub : (rp, lr) ∈ pdc.sub_problems)
    (hcnot : conv ∉ pdc.conversations)
    (hsnot : ∀ {s l}, (s, l) ∈ pdc.sub_problems → conv ∉ l)
    (hnew : alookup conv asg' = some (cp, rp))
    (hold : ∀ c, c ≠ conv → alookup c asg' = alookup c asg) :
    PDInv asg' cp
      { conversations := pdc.conversations ++ [conv],
        sub_problems := pdc.sub_problems.map (fun e =>
          if e.1 = rp then (e.1, if conv ∈ e.2 then e.2 else e.2 ++ [conv]) else e) } := by
  have gkeys := assocUpd_keys pdc.sub_problems rp
    (fun l2 => if conv ∈ l2 then l2 else l2 ++ [conv])
  have gmem := fun (s : String) (l : List String) =>
    @mem_assocUpd (List String) pdc.sub_problems rp
      (fun l2 => if conv ∈ l2 then l2 else l2 ++ [conv]) s l
  refine ⟨?_, ?_, ?_, ?_, ?_, ?_⟩
  · show ((pdc.sub_problems.map _).map Prod.fst).Nodup
    rw [gkeys]
    exact hpd.subKeysND
  · exact nodup_append_single hpd.convND hcnot
  · intro s l hl
    rcases (gmem s l).mp hl with ⟨_, hl⟩ | ⟨heq, d0, hd0, hdf⟩
    · exact hpd.subND hl
    · subst hdf
      rw [if_neg (hsnot hd0)]
      exact nodup_append_single (hpd.subND hd0) (hsnot hd0)
  · intro x
    have key := subsUpd_join_count (fun l => if conv ∈ l then l else l ++ [conv])
      hpd.subKeysND hsub x
    have hglr : (if conv ∈ lr then lr else lr ++ [conv]) = lr ++ [conv] :=
      if_neg (hsnot hsub)
    rw [hglr] at key
    have hce := hpd.countEq x
    simp only [joinSubs] at key hce ⊢
    by_cases hx : x = conv
    · subst hx
      simp only [List.count_append, List.count_cons_self, List.count_nil] at key ⊢
      omega
    · have h1 : List.count x [conv] = 0 := by
        simp [List.count_eq_zero, hx]
      simp only [List.count_append, h1] at key ⊢
      omega
  · intro c hc
    rcases List.mem_append.mp hc with hc | hc
    · have hcne : c ≠ conv := fun he => hcnot (he ▸ hc)
      rcases hpd.convAssigned hc with ⟨s, hs⟩
      exact ⟨s, (hold c hcne).trans hs⟩
    · simp only [List.mem_cons, List.not_mem_nil, or_false] at hc
      subst hc
      exact ⟨rp, hnew⟩
  · intro s l hl c hc
    rcases (gmem s l).mp hl with ⟨_, hl⟩ | ⟨heq, d0, hd0, hdf⟩
    · have hcne : c ≠ conv := fun he => hsnot hl (he ▸ hc)
      exact (hold c hcne).trans (hpd.subAssigned hl hc)
    · subst heq; subst hdf
      rw [if_neg (hsnot hd0)] at hc
      rcases List.mem_append.mp hc with hc | hc
      · have hcne : c ≠ conv := fun he => hsnot hd0 (he ▸ hc)
        exact (hold c hcne).trans (hpd.subAssigned hd0 hc)
      · simp only [List.mem_cons, List.not_mem_nil, or_false] at hc
        subst hc
        exact hnew

theorem removeConv_pdInv {asg asg' : Assignment} {p0 s0 conv : String}
    {pd0 : ProblemData} {l0 : List String}
    (hpd : PDInv asg p0 pd0)
    (hsub0 : (s0, l0) ∈ pd0.sub_problems)
    (hc0 : conv ∈ l0)
    (hcc : conv ∈ pd0.conversations)
    (hconv_asg : alookup conv asg = some (p0, s0))
    (hold : ∀ c, c ≠ conv → alookup c asg' = alookup c asg) :
    PDInv asg' p0
      { conversations := pd0.conversations.erase conv,
        sub_problems := pd0.sub_problems.map (fun e =>
          if e.1 = s0 then (e.1, e.2.erase conv) else e) } := by
  have gkeys := assocUpd_keys pd0.sub_problems s0 (fun l2 => l2.erase conv)
  have gmem := fun (s : String) (l : List String) =>
    @mem_assocUpd (List String) pd0.sub_problems s0 (fun l2 => l2.erase conv) s l
  refine ⟨?_, hpd.convND.erase conv, ?_, ?_, ?_, ?_⟩
  · show ((pd0.sub_problems.map _).map Prod.fst).Nodup
    rw [gkeys]
    exact hpd.subKeysND
  · intro s l hl
    rcases (gmem s l).mp hl with ⟨_, hl⟩ | ⟨heq, d0, hd0, hdf⟩
    · exact hpd.subND hl
    · subst hdf
      exact (hpd.subND hd0).erase conv
  · intro x
    have key := subsUpd_join_count (fun l => l.erase conv) hpd.subKeysND hsub0 x
    have hce := hpd.countEq x
    have herase : List.count x (l0.erase conv) = List.count x l0 - if conv == x then 1 else 0 :=
      List.count_erase x conv l0
    have herase2 : List.count x (pd0.conversations.erase conv)
        = List.count x pd0.conversations - if conv == x then 1 else 0 :=
      List.count_erase x conv pd0.conversations
    simp only [joinSubs] at key hce ⊢
    by_cases hx : x = conv
    · subst hx
      have hone : List.count x l0 = 1 := List.count_eq_one_of_mem (hpd.subND hsub0) hc0
      have hpos : 0 < List.count x pd0.conversations := List.count_pos_iff.mpr hcc
      simp only [beq_self_eq_true, if_true] at herase herase2
      omega
    · have hne : (conv == x) = false := by
        simp [Ne.symm hx]
      simp only [hne, Bool.false_eq_true, if_false] at herase herase2
      omega
  · intro c hc
    rw [List.Nodup.mem_erase_iff hpd.convND] at hc
    rcases hpd.convAssigned hc.2 with ⟨s, hs⟩
    exact ⟨s, (hold c hc.1).trans hs⟩
  · intro s l hl c hc
    rcases (gmem s l).mp hl with ⟨hne2, hl2⟩ | ⟨heq, d0, hd0, hdf⟩
    · have hcne : c ≠ conv := by
        intro he
        have hthis := hpd.subAssigned hl2 hc
        rw [he, hconv_asg] at hthis
        injection hthis with h2
        injection h2 with _ h3
        exact hne2 h3.symm
      exact (hold c hcne).trans (hpd.subAssigned hl2 hc)
    · subst heq; subst hdf
      rw [List.Nodup.mem_erase_iff (hpd.subND hd0)] at hc
      exact (hold c hc.1).trans (hpd.subAssigned hd0 hc.2)

end Seachat

namespace Seachat

theorem assignConv_inv {st : CState} {cp rp : String} (h : CInv st)
    {pdc : ProblemData} {lr : List String}
    (hcpm : (cp, pdc) ∈ st.problems) (hrpm : (rp, lr) ∈ pdc.sub_problems)
    (conv : String) :
    CInv (assignConv cp rp st conv) ∧
    ∃ pdc2, (cp, pdc2) ∈ (assignConv cp rp st conv).problems ∧
      ∃ lr2, (rp, lr2) ∈ pdc2.sub_problems := by
  rcases hl : alookup conv st.assignment with _ | ps
  · -- conv not yet assigned: append the assignment and add the occurrence
    have hres : assignConv cp rp st conv =
        { problems := addConvTo st.problems cp rp conv,
          assignment := st.assignment ++ [(conv, (cp, rp))] } := by
      simp only [assignConv, hl]
    rw [hres]
    have hnew : alookup conv (st.assignment ++ [(conv, (cp, rp))]) = some (cp, rp) :=
      alookup_append_single_self _ hl
    have hold : ∀ c, c ≠ conv →
        alookup c (st.assignment ++ [(conv, (cp, rp))]) = alookup c st.assignment :=
      fun c hc => alookup_append_single_ne _ _ hc
    have hnoconv : ∀ {q pd}, (q, pd) ∈ st.problems → conv ∉ pd.conversations := by
      intro q pd hm hcv
      rcases (h.pdInv hm).convAssigned hcv with ⟨s, hs⟩
      rw [hl] at hs
      exact Option.noConfusion hs
    have hnosub : ∀ {q pd}, (q, pd) ∈ st.problems →
        ∀ {s l}, (s, l) ∈ pd.sub_problems → conv ∉ l := by
      intro q pd hm s l hsl hcv
      have := (h.pdInv hm).subAssigned hsl hcv
      rw [hl] at this
      exact Option.noConfusion this
    have gmem := fun (q : String) (d : ProblemData) =>
      @mem_updateProblem st.problems cp
        (fun pd =>
          let pd :=
            if conv ∈ pd.conversations then pd
            else { pd with conversations := pd.conversations ++ [conv] }
          { pd with sub_problems := pd.sub_problems.map (fun (e : String × List String) =>
              if e.1 = rp then (e.1, if conv ∈ e.2 then e.2 else e.2 ++ [conv]) else e) }) q d
    have hglr : (if conv ∈ lr then lr else lr ++ [conv]) = lr ++ [conv] :=
      if_neg (hnosub hcpm hrpm)
    have hrpnew : (rp, lr ++ [conv]) ∈ pdc.sub_problems.map (fun e =>
        if e.1 = rp then (e.1, if conv ∈ e.2 then e.2 else e.2 ++ [conv]) else e) := by
      refine (@mem_assocUpd (List String) pdc.sub_problems rp
        (fun l2 => if conv ∈ l2 then l2 else l2 ++ [conv]) rp (lr ++ [conv])).mpr ?_
      exact Or.inr ⟨rfl, lr, hrpm, hglr.symm⟩
    refine ⟨⟨?_, ?_, ?_⟩, ?_⟩
    · show ((addConvTo st.problems cp rp conv).map Prod.fst).Nodup
      rw [addConvTo, updateProblem_keys]
      exact h.keysND
    · intro q d hqd
      replace hqd : (q, d) ∈ addConvTo st.problems cp rp conv := hqd
      rcases (gmem q d).mp hqd with ⟨hne, hqd2⟩ | ⟨heq, d0, hd0, hdf⟩
      · refine pdInv_assignment_transfer (h.pdInv hqd2) ?_
        intro c s' hcs
        have hcne : c ≠ conv := by
          intro he
          rw [he, hl] at hcs
          exact Option.noConfusion hcs
        rw [hold c hcne]
        exact hcs
      · have hd0pdc : d0 = pdc := mem_keys_unique h.keysND hd0 hcpm
        subst hd0pdc; subst heq; subst hdf
        simp only [if_neg (hnoconv hd0)]
        exact addConvTo_pdInv (h.pdInv hd0) hrpm (hnoconv hd0) (hnosub hd0) hnew hold
    · intro c p s hcs
      replace hcs : alookup c (st.assignment ++ [(conv, (cp, rp))]) = some (p, s) := hcs
      by_cases hcc : c = conv
      · subst hcc
        rw [hnew] at hcs
        injection hcs with hps
        injection hps with hp hs
        subst hp; subst hs
        refine ⟨_, (gmem cp _).mpr (Or.inr ⟨rfl, pdc, hcpm, rfl⟩), ?_, ?_⟩
        · simp only [if_neg (hnoconv hcpm)]
          exact List.mem_append_right _ (List.mem_singleton_self _)
        · simp only [if_neg (hnoconv hcpm)]
          exact ⟨lr ++ [c], hrpnew, List.mem_append_right _ (List.mem_singleton_self _)⟩
      · rw [hold c hcc] at hcs
        rcases h.assignedIn hcs with ⟨pd, hpdm, hconvm, l, hsm, hcl⟩
        by_cases hqcp : p = cp
        · subst hqcp
          have hpdc : pd = pdc := mem_keys_unique h.keysND hpdm hcpm
          subst hpdc
          refine ⟨_, (gmem p _).mpr (Or.inr ⟨rfl, pd, hpdm, rfl⟩), ?_, ?_⟩
          · simp only [if_neg (hnoconv hpdm)]
            exact List.mem_append_left _ hconvm
          · simp only [if_neg (hnoconv hpdm)]
            by_cases hsrp : s = rp
            · subst hsrp
              have hllr : l = lr := mem_keys_unique (h.pdInv hpdm).subKeysND hsm hrpm
              subst hllr
              exact ⟨l ++ [conv], hrpnew, List.mem_append_left _ hcl⟩
            · refine ⟨l, ?_, hcl⟩
              refine (@mem_assocUpd (List String) pd.sub_problems rp
                (fun l2 => if conv ∈ l2 then l2 else l2 ++ [conv]) s l).mpr ?_
              exact Or.inl ⟨hsrp, hsm⟩
        · exact ⟨pd, (gmem p pd).mpr (Or.inl ⟨hqcp, hpdm⟩), hconvm, l, hsm, hcl⟩
    · refine ⟨_, (gmem cp _).mpr (Or.inr ⟨rfl, pdc, hcpm, rfl⟩), ?_⟩
      simp only [if_neg (hnoconv hcpm)]
      exact ⟨lr ++ [conv], hrpnew⟩
  · -- conv already assigned to ps = (p0, s0)
    rcases ps with ⟨p0, s0⟩
    by_cases hlt : pyStrLt cp p0
    · -- move branch
      have hres : assignConv cp rp st conv =
          { problems := addConvTo (removeConvFrom st.problems p0 s0 conv) cp rp conv,
            assignment := st.assignment.map (fun e =>
              if e.1 = conv then (conv, (cp, rp)) else e) } := by
        simp only [assignConv, hl, hlt, if_true]
      rw [hres]
      have hne0 : cp ≠ p0 := pyStrLt_ne hlt
      rcases h.assignedIn hl with ⟨pd0, hp0m, hcc0, l0, hs0m, hc0l⟩
      have hnew : alookup conv (st.assignment.map (fun e =>
          if e.1 = conv then (conv, (cp, rp)) else e)) = some (cp, rp) :=
        alookup_replace_self _ _ _ hl
      have hold : ∀ c, c ≠ conv → alookup c (st.assignment.map (fun e =>
          if e.1 = conv then (conv, (cp, rp)) else e)) = alookup c st.assignment :=
        fun c hc => alookup_replace_other _ _ _ hc
      have hcnotc : conv ∉ pdc.conversations := by
        intro hcv
        rcases (h.pdInv hcpm).convAssigned hcv with ⟨s, hs⟩
        rw [hl] at hs
        injection hs with hps
        injection hps with hp _
        exact hne0 hp.symm
      have hsnotc : ∀ {s l}, (s, l) ∈ pdc.sub_problems → conv ∉ l := by
        intro s l hsl hcv
        have hs := (h.pdInv hcpm).subAssigned hsl hcv
        rw [hl] at hs
        injection hs with hps
        injection hps with hp _
        exact hne0 hp.symm
      have gmemR := fun (q : String) (d : ProblemData) =>
        @mem_updateProblem st.problems p0
          (fun pd =>
            { conversations := pd.conversations.erase conv,
              sub_problems := pd.sub_problems.map (fun (e : String × List String) =>
                if e.1 = s0 then (e.1, e.2.erase conv) else e) }) q d
      have hcpR : (cp, pdc) ∈ removeConvFrom st.problems p0 s0 conv :=
        (gmemR cp pdc).mpr (Or.inl ⟨hne0, hcpm⟩)
      have hkeysR : ((removeConvFrom st.problems p0 s0 conv).map Prod.fst).Nodup := by
        rw [removeConvFrom, updateProblem_keys]
        exact h.keysND
      have gmemA := fun (q : String) (d : ProblemData) =>
        @mem_updateProblem (removeConvFrom st.problems p0 s0 conv) cp
          (fun pd =>
            let pd :=
              if conv ∈ pd.conversations then pd
              else { pd with conversations := pd.conversations ++ [conv] }
            { pd with sub_problems := pd.sub_problems.map (fun (e : String × List String) =>
                if e.1 = rp then (e.1, if conv ∈ e.2 then e.2 else e.2 ++ [conv]) else e) }) q d
      have hglr : (if conv ∈ lr then lr else lr ++ [conv]) = lr ++ [conv] :=
        if_neg (hsnotc hrpm)
      have hrpnew : (rp, lr ++ [conv]) ∈ pdc.sub_problems.map (fun e =>
          if e.1 = rp then (e.1, if conv ∈ e.2 then e.2 else e.2 ++ [conv]) else e) := by
        refine (@mem_assocUpd (List String) pdc.sub_problems rp
          (fun l2 => if conv ∈ l2 then l2 else l2 ++ [conv]) rp (lr ++ [conv])).mpr ?_
        exact Or.inr ⟨rfl, lr, hrpm, hglr.symm⟩
      refine ⟨⟨?_, ?_, ?_⟩, ?_⟩
      · show ((addConvTo (removeConvFrom st.problems p0 s0 conv) cp rp conv).map Prod.fst).Nodup
        rw [addConvTo, updateProblem_keys, removeConvFrom, updateProblem_keys]
        exact h.keysND
      · intro q d hqd
        replace hqd : (q, d) ∈ addConvTo (removeConvFrom st.problems p0 s0 conv) cp rp conv := hqd
        rcases (gmemA q d).mp hqd with ⟨hneA, hqdR⟩ | ⟨heqA, dR, hdR, hdf⟩
        · rcases (gmemR q d).mp hqdR with ⟨hneR, hqd0⟩ | ⟨heqR, d0, hd0, hdf0⟩
          · refine pdInv_assignment_transfer (h.pdInv hqd0) ?_
            intro c s' hcs
            have hcne : c ≠ conv := by
              intro he
              rw [he, hl] at hcs
              injection hcs with hps
              injection hps with hp _
              exact hneR hp.symm
            rw [hold c hcne]
            exact hcs
          · have hd0pd0 : d0 = pd0 := mem_keys_unique h.keysND hd0 hp0m
            subst hd0pd0; subst heqR; subst hdf0
            exact removeConv_pdInv (h.pdInv hd0) hs0m hc0l hcc0 hl hold
        · have hdRpdc : dR = pdc := by
            rcases (gmemR cp dR).mp hdR with ⟨_, hdR2⟩ | ⟨heqR, _, _, _⟩
            · exact mem_keys_unique h.keysND hdR2 hcpm
            · exact absurd heqR hne0
          subst hdRpdc; subst heqA; subst hdf
          simp only [if_neg hcnotc]
          exact addConvTo_pdInv (h.pdInv hcpm) hrpm hcnotc hsnotc hnew hold
      · intro c p s hcs
        replace hcs : alookup c (st.assignment.map (fun e =>
            if e.1 = conv then (conv, (cp, rp)) else e)) = some (p, s) := hcs
        by_cases hcc : c = conv
        · subst hcc
          rw [hnew] at hcs
          injection hcs with hps
          injection hps with hp hs
          subst hp; subst hs
          refine ⟨_, (gmemA cp _).mpr (Or.inr ⟨rfl, pdc, hcpR, rfl⟩), ?_, ?_⟩
          · simp only [if_neg hcnotc]
            exact List.mem_append_right _ (List.mem_singleton_self _)
          · simp only [if_neg hcnotc]
            exact ⟨lr ++ [c], hrpnew, List.mem_append_right _ (List.mem_singleton_self _)⟩
        · rw [hold c hcc] at hcs
          rcases h.assignedIn hcs with ⟨pd, hpdm, hconvm, l, hsm, hcl⟩
          by_cases hqcp : p = cp
          · subst hqcp
            have hpdc : pd = pdc := mem_keys_unique h.keysND hpdm hcpm
            subst hpdc
            refine ⟨_, (gmemA p _).mpr (Or.inr ⟨rfl, pd, hcpR, rfl⟩), ?_, ?_⟩
            · simp only [if_neg hcnotc]
              exact List.mem_append_left _ hconvm
            · simp only [if_neg hcnotc]
              by_cases hsrp : s = rp
              · subst hsrp
                have hllr : l = lr := mem_keys_unique (h.pdInv hpdm).subKeysND hsm hrpm
                subst hllr
                exact ⟨l ++ [conv], hrpnew, List.mem_append_left _ hcl⟩
              · refine ⟨l, ?_, hcl⟩
                refine (@mem_assocUpd (List String) pd.sub_problems rp
                  (fun l2 => if conv ∈ l2 then l2 else l2 ++ [conv]) s l).mpr ?_
                exact Or.inl ⟨hsrp, hsm⟩
          · by_cases hqp0 : p = p0
            · subst hqp0
              have hpd0 : pd = pd0 := mem_keys_unique h.keysND hpdm hp0m
              subst hpd0
              refine ⟨_, (gmemA p _).mpr (Or.inl ⟨hqcp,
                (gmemR p _).mpr (Or.inr ⟨rfl, pd, hpdm, rfl⟩)⟩), ?_, ?_⟩
              · exact (List.mem_erase_of_ne hcc).mpr hconvm
              · by_cases hss0 : s = s0
                · subst hss0
                  have hll0 : l = l0 := mem_keys_unique (h.pdInv hpdm).subKeysND hsm hs0m
                  subst hll0
                  refine ⟨l.erase conv, ?_, (List.mem_erase_of_ne hcc).mpr hcl⟩
                  refine (@mem_assocUpd (List String) pd.sub_problems s
                    (fun l2 => l2.erase conv) s (l.erase conv)).mpr ?_
                  exact Or.inr ⟨rfl, l, hsm, rfl⟩
                · refine ⟨l, ?_, hcl⟩
                  refine (@mem_assocUpd (List String) pd.sub_problems s0
                    (fun l2 => l2.erase conv) s l).mpr ?_
                  exact Or.inl ⟨hss0, hsm⟩
            · exact ⟨pd, (gmemA p pd).mpr (Or.inl ⟨hqcp,
                (gmemR p pd).mpr (Or.inl ⟨hqp0, hpdm⟩)⟩), hconvm, l, hsm, hcl⟩
      · refine ⟨_, (gmemA cp _).mpr (Or.inr ⟨rfl, pdc, hcpR, rfl⟩), ?_⟩
        simp only [if_neg hcnotc]
        exact ⟨lr ++ [conv], hrpnew⟩
    · -- already assigned with equal or smaller problem name: no change
      have hres : assignConv cp rp st conv = st := by
        simp only [assignConv, hl, hlt, Bool.false_eq_true, if_false]
      rw [hres]
      exact ⟨h, pdc, hcpm, lr, hrpm⟩

end Seachat

namespace Seachat

theorem CInv_init : CInv ⟨[], []⟩ := by
  refine ⟨?_, ?_, ?_⟩
  · simp
  · intro p pd hm
    simp at hm
  · intro c p s hcs
    replace hcs : alookup c ([] : Assignment) = some (p, s) := hcs
    simp [alookup] at hcs

theorem foldl_assignConv_inv {cp rp : String} (convs : List String) :
    ∀ (st : CState), CInv st →
      (∃ pdc, (cp, pdc) ∈ st.problems ∧ ∃ lr, (rp, lr) ∈ pdc.sub_problems) →
      CInv (convs.foldl (assignConv cp rp) st) := by
  induction convs with
  | nil => intro st h _; exact h
  | cons conv rest ih =>
    intro st h hex
    rcases hex with ⟨pdc, hm, lr, hsub⟩
    have h2 := assignConv_inv h hm hsub conv
    exact ih _ h2.1 h2.2

theorem processCandidate_inv {st : CState} (h : CInv st)
    (c : String × String × List String) : CInv (processCandidate st c) := by
  rcases c with ⟨cp, rp, convs⟩
  have h1 := ensureProblem_inv h cp
  rcases h1.2 with ⟨pd, hpd⟩
  have hmid : CInv (⟨ensureProblem st.problems cp, st.assignment⟩ : CState) := h1.1
  have h2 := ensureSub_inv hmid cp rp hpd
  exact foldl_assignConv_inv convs _ h2.1 h2.2

theorem processCandidates_inv (cands : List (String × String × List String)) :
    ∀ (st : CState), CInv st → CInv (cands.foldl processCandidate st) := by
  induction cands with
  | nil => intro st h; exact h
  | cons c rest ih =>
    intro st h
    exact ih _ (processCandidate_inv h c)

theorem regroup_fold_count (subs : List (String × List String)) :
    ∀ (acc : List (String × List String)), (acc.map Prod.fst).Nodup →
      (((subs.foldl (fun acc e =>
          let b := create_broad_sub_category e.1
          if (alookup b acc).isSome then
            acc.map (fun f => if f.1 = b then (f.1, f.2 ++ e.2) else f)
          else acc ++ [(b, e.2)]) acc).map Prod.fst).Nodup) ∧
      (∀ x, (((subs.foldl (fun acc e =>
          let b := create_broad_sub_category e.1
          if (alookup b acc).isSome then
            acc.map (fun f => if f.1 = b then (f.1, f.2 ++ e.2) else f)
          else acc ++ [(b, e.2)]) acc).map Prod.snd).flatten).count x
        = ((acc.map Prod.snd).flatten).count x + ((subs.map Prod.snd).flatten).count x) := by
  induction subs with
  | nil =>
    intro acc hnd
    exact ⟨hnd, fun x => by simp⟩
  | cons e rest ih =>
    intro acc hnd
    by_cases hs : (alookup (create_broad_sub_category e.1) acc).isSome
    · rcases Option.isSome_iff_exists.mp hs with ⟨lb, hlb⟩
      have hmemb : (create_broad_sub_category e.1, lb) ∈ acc := alookup_mem hlb
      have hnd2 : ((acc.map (fun f => if f.1 = create_broad_sub_category e.1
          then (f.1, f.2 ++ e.2) else f)).map Prod.fst).Nodup := by
        rw [assocUpd_keys acc (create_broad_sub_category e.1) (fun l2 => l2 ++ e.2)]
        exact hnd
      have hjc := subsUpd_join_count (fun l2 => l2 ++ e.2) hnd hmemb
      have hrest := ih _ hnd2
      simp only [List.foldl_cons, hs, eq_self_iff_true, if_true]
      refine ⟨hrest.1, ?_⟩
      intro x
      have h1 := hrest.2 x
      have h2 := hjc x
      simp only [List.map_cons, List.flatten_cons, List.count_append] at h1 h2 ⊢
      omega
    · have hnone : alookup (create_broad_sub_category e.1) acc = none :=
        Option.not_isSome_iff_eq_none.mp hs
      have hnotin : create_broad_sub_category e.1 ∉ acc.map Prod.fst :=
        (alookup_eq_none _ acc).mp hnone
      have hnd2 : (((acc ++ [(create_broad_sub_category e.1, e.2)]).map Prod.fst)).Nodup := by
        simp only [List.map_append, List.map_cons, List.map_nil]
        exact nodup_append_single hnd hnotin
      have hrest := ih _ hnd2
      simp only [List.foldl_cons, hnone, Option.isSome_none, Bool.false_eq_true, if_false]
      refine ⟨hrest.1, ?_⟩
      intro x
      have h1 := hrest.2 x
      simp only [List.map_cons, List.map_append, List.flatten_cons, List.flatten_append,
        List.count_append, List.map_nil, List.flatten_nil, List.count_nil] at h1 ⊢
      omega

theorem regroupSubs_count (subs : List (String × List String)) (x : String) :
    (((regroupSubs subs).map Prod.snd).flatten).count x
      = ((subs.map Prod.snd).flatten).count x := by
  have h := (regroup_fold_count subs [] (by simp)).2 x
  simp only [List.map_nil, List.flatten_nil, List.count_nil, Nat.zero_add] at h
  exact h

theorem regroupSubs_keys_nodup (subs : List (String × List String)) :
    ((regroupSubs subs).map Prod.fst).Nodup :=
  (regroup_fold_count subs [] (by simp)).1

end Seachat

namespace Seachat

theorem map_fst_preserved {α : Type} (m : List (String × α)) (g : String × α → String × α)
    (hg : ∀ e, (g e).1 = e.1) : (m.map g).map Prod.fst = m.map Prod.fst := by
  induction m with
  | nil => rfl
  | cons e t ih =>
    simp only [List.map_cons, hg e, ih]

theorem broadenPass_keys (m : ProblemsMap) :
    (broadenPass m).map Prod.fst = m.map Prod.fst := by
  refine map_fst_preserved m _ ?_
  intro e
  by_cases h : e.2.sub_problems.length > 1 <;> simp [h]

theorem broadenPass_entry {m : ProblemsMap} {p : String} {pd : ProblemData}
    (hmem : (p, pd) ∈ broadenPass m) :
    ∃ pd0, (p, pd0) ∈ m ∧ pd.conversations = pd0.conversations ∧
      ∀ x, (joinSubs pd).count x = (joinSubs pd0).count x := by
  rcases List.mem_map.mp hmem with ⟨⟨q, d⟩, h0, heq⟩
  by_cases hlen : (q, d).2.sub_problems.length > 1
  · rw [if_pos hlen] at heq
    injection heq with h1 h2
    subst h1
    refine ⟨d, h0, ?_, ?_⟩
    · rw [← h2]
    · intro x
      rw [← h2]
      exact regroupSubs_count d.sub_problems x
  · rw [if_neg hlen] at heq
    injection heq with h1 h2
    subst h1; subst h2
    exact ⟨d, h0, rfl, fun x => rfl⟩

theorem cleanup_filter_count (subs : List (String × List String)) (x : String) :
    (((subs.filter (fun f => !f.2.isEmpty)).map Prod.snd).flatten).count x
      = ((subs.map Prod.snd).flatten).count x := by
  induction subs with
  | nil => rfl
  | cons e rest ih =>
    by_cases he : e.2.isEmpty
    · have he2 : e.2 = [] := List.isEmpty_iff.mp he
      have hcond : (!e.2.isEmpty) = false := by rw [he]; rfl
      simp only [List.filter_cons, hcond, Bool.false_eq_true, if_false]
      simp only [List.map_cons, List.flatten_cons, List.count_append, he2,
        List.count_nil, ih]
      omega
    · have hcond : (!e.2.isEmpty) = true := by
        simp only [Bool.not_eq_true] at he
        rw [he]; rfl
      simp only [List.filter_cons, hcond, eq_self_iff_true, if_true, List.map_cons,
        List.flatten_cons, List.count_append, ih]

theorem cleanupPass_entry {m : ProblemsMap} {p : String} {pd : ProblemData}
    (hmem : (p, pd) ∈ cleanupPass m) :
    ∃ pd0, (p, pd0) ∈ m ∧ pd.conversations = pd0.conversations ∧
      ∀ x, (joinSubs pd).count x = (joinSubs pd0).count x := by
  rcases List.mem_map.mp hmem with ⟨⟨q, d⟩, h0, heq⟩
  injection heq with h1 h2
  subst h1
  refine ⟨d, (List.mem_filter.mp h0).1, ?_, ?_⟩
  · rw [← h2]
  · intro x
    rw [← h2]
    exact cleanup_filter_count d.sub_problems x

theorem cleanupPass_keys_nodup {m : ProblemsMap} (h : (m.map Prod.fst).Nodup) :
    ((cleanupPass m).map Prod.fst).Nodup := by
  have h1 : (cleanupPass m).map Prod.fst
      = (m.filter (fun e => !e.2.conversations.isEmpty)).map Prod.fst := by
    refine map_fst_preserved _ _ ?_
    intro e
    rfl
  rw [h1]
  exact h.sublist (List.Sublist.map Prod.fst (List.filter_sublist m))

theorem capabilitiesPass_unassigned (caps : List (String × List String)) (asg : Assignment) :
    ∀ {cap l}, (cap, l) ∈ capabilitiesPass caps asg → ∀ c ∈ l, alookup c asg = none := by
  suffices h : ∀ (cs : List (String × List String)) (acc : List (String × List String)),
      (∀ e ∈ acc, ∀ c ∈ Prod.snd e, alookup c asg = none) →
      ∀ e ∈ cs.foldl (fun acc e =>
        let unassigned := e.2.filter (fun c => (alookup c asg).isNone)
        if unassigned.isEmpty then acc else acc ++ [(e.1, unassigned)]) acc,
      ∀ c ∈ Prod.snd e, alookup c asg = none by
    intro cap l hm
    exact h caps [] (by simp) (cap, l) hm
  intro cs
  induction cs with
  | nil =>
    intro acc hacc e he
    exact hacc e he
  | cons e0 rest ih =>
    intro acc hacc e he
    simp only [List.foldl_cons] at he
    by_cases hie : (e0.2.filter (fun c => (alookup c asg).isNone)).isEmpty
    · rw [if_pos hie] at he
      exact ih acc hacc e he
    · rw [if_neg hie] at he
      refine ih _ ?_ e he
      intro f hf c hc
      rcases List.mem_append.mp hf with hf | hf
      · exact hacc f hf c hc
      · simp only [List.mem_cons, List.not_mem_nil, or_false] at hf
        subst hf
        simp only at hc
        have := (List.mem_filter.mp hc).2
        exact Option.isNone_iff_eq_none.mp this

end Seachat

namespace Seachat

theorem cleanup_broaden_entry {m : ProblemsMap} {p : String} {pd : ProblemData}
    (hmem : (p, pd) ∈ cleanupPass (broadenPass m)) :
    ∃ q, (p, q) ∈ m ∧ pd.conversations = q.conversations ∧
      ∀ x, (joinSubs pd).count x = (joinSubs q).count x := by
  rcases cleanupPass_entry hmem with ⟨d0, h0, hc0, hj0⟩
  rcases broadenPass_entry h0 with ⟨d1, h1, hc1, hj1⟩
  exact ⟨d1, h1, hc0.trans hc1, fun x => (hj0 x).trans (hj1 x)⟩

theorem final_mapping_invariants (st : CState) (hinv : CInv st)
    (caps : List (String × List String)) :
    ((cleanupPass (broadenPass st.problems)).map Prod.fst).Nodup ∧
    (∀ c p1 pd1 p2 pd2, (p1, pd1) ∈ cleanupPass (broadenPass st.problems) →
      (p2, pd2) ∈ cleanupPass (broadenPass st.problems) →
      c ∈ pd1.conversations → c ∈ pd2.conversations → p1 = p2) ∧
    (∀ p pd, (p, pd) ∈ cleanupPass (broadenPass st.problems) →
      ∀ x, (joinSubs pd).count x = pd.conversations.count x) ∧
    (∀ c p pd, (p, pd) ∈ cleanupPass (broadenPass st.problems) → c ∈ pd.conversations →
      ∀ cap l, (cap, l) ∈ capabilitiesPass caps st.assignment → c ∉ l) := by
  refine ⟨?_, ?_, ?_, ?_⟩
  · refine cleanupPass_keys_nodup ?_
    rw [broadenPass_keys]
    exact hinv.keysND
  · intro c p1 pd1 p2 pd2 h1 h2 hc1 hc2
    rcases cleanup_broaden_entry h1 with ⟨q1, hq1, hcq1, _⟩
    rcases cleanup_broaden_entry h2 with ⟨q2, hq2, hcq2, _⟩
    have hm1 : c ∈ q1.conversations := by rw [← hcq1]; exact hc1
    have hm2 : c ∈ q2.conversations := by rw [← hcq2]; exact hc2
    rcases (hinv.pdInv hq1).convAssigned hm1 with ⟨s1, hs1⟩
    rcases (hinv.pdInv hq2).convAssigned hm2 with ⟨s2, hs2⟩
    have heq := hs1.symm.trans hs2
    injection heq with h3
    injection h3
  · intro p pd hmem x
    rcases cleanup_broaden_entry hmem with ⟨q, hq, hcq, hjq⟩
    rw [hjq x, (hinv.pdInv hq).countEq x, ← hcq]
  · intro c p pd hmem hc cap l hcapmem hcl
    rcases cleanup_broaden_entry hmem with ⟨q, hq, hcq, _⟩
    have hm : c ∈ q.conversations := by rw [← hcq]; exact hc
    rcases (hinv.pdInv hq).convAssigned hm with ⟨s, hs⟩
    have hnone := capabilitiesPass_unassigned caps st.assignment hcapmem c hcl
    rw [hs] at hnone
    exact Option.some_ne_none _ hnone

/-- C6: for every raw problem mapping, create_consolidated_mapping yields
a mapping in which the consolidated problem names are distinct, each
conversation file appears under at most one top-level consolidated
problem, within each problem the total occurrence count of a file across
all sub-problem lists equals its count in the top-level conversation
list, and no file assigned to a problem also appears under any
successful capability. -/
theorem C6_consolidated_mapping_invariants (raw : RawMapping) :
    ((create_consolidated_mapping raw).problems.map Prod.fst).Nodup ∧
    (∀ c p1 pd1 p2 pd2, (p1, pd1) ∈ (create_consolidated_mapping raw).problems →
      (p2, pd2) ∈ (create_consolidated_mapping raw).problems →
      c ∈ pd1.conversations → c ∈ pd2.conversations → p1 = p2) ∧
    (∀ p pd, (p, pd) ∈ (create_consolidated_mapping raw).problems →
      ∀ x, (joinSubs pd).count x = pd.conversations.count x) ∧
    (∀ c p pd, (p, pd) ∈ (create_consolidated_mapping raw).problems → c ∈ pd.conversations →
      ∀ cap l, (cap, l) ∈ (create_consolidated_mapping raw).successful_capabilities →
        c ∉ l) := by
  have h := final_mapping_invariants
    (((raw.problems.map (fun e => (consolidate_similar_features e.1, e.1, e.2))).insertionSort
      (fun a b => pyStrLe a.1 b.1 = true)).foldl processCandidate ⟨[], []⟩)
    (processCandidates_inv _ _ CInv_init) raw.successful_capabilities
  exact h

/-- Witness: the invariants evaluated on the concrete raw mapping
c6ExampleRaw, where f1.csv is claimed by both raw problems and the
alphabetically first consolidated name wins. -/
theorem C6_consolidated_mapping_invariants_witness :
    (("account-access-verification",
        (⟨["f1.csv", "f3.csv"],
          [("account verification flow", ["f1.csv", "f3.csv"])]⟩ : ProblemData))
      ∈ (create_consolidated_mapping c6ExampleRaw).problems) ∧
    ("f1.csv" ∈ (["f1.csv", "f3.csv"] : List String)) ∧
    (("greeting", ["f9.csv"])
      ∈ (create_consolidated_mapping c6ExampleRaw).successful_capabilities) ∧
    ((create_consolidated_mapping c6ExampleRaw).problems.map Prod.fst).Nodup ∧
    (("account-access-verification" : String) = "account-access-verification") ∧
    ((joinSubs ⟨["f1.csv", "f3.csv"],
        [("account verification flow", ["f1.csv", "f3.csv"])]⟩).count "f1.csv"
      = (["f1.csv", "f3.csv"] : List String).count "f1.csv") ∧
    ("f1.csv" ∉ (["f9.csv"] : List String)) := by
  have h := C6_consolidated_mapping_invariants c6ExampleRaw
  have hmem : ("account-access-verification",
      (⟨["f1.csv", "f3.csv"],
        [("account verification flow", ["f1.csv", "f3.csv"])]⟩ : ProblemData))
      ∈ (create_consolidated_mapping c6ExampleRaw).problems := by decide
  have hcap : ("greeting", ["f9.csv"])
      ∈ (create_consolidated_mapping c6ExampleRaw).successful_capabilities := by decide
  refine ⟨hmem, by decide, hcap, h.1,
    h.2.1 "f1.csv" _ _ _ _ hmem hmem (by decide) (by decide),
    h.2.2.1 _ _ hmem "f1.csv",
    h.2.2.2 "f1.csv" _ _ hmem (by decide) "greeting" ["f9.csv"] hcap⟩

end Seachat
